import Mathlib

/-!
Verification of the `keyboard` package of direct-key-handler
(`src/keyboard/handler.go`): a shallow embedding of the byte-to-event
decoder (escape sequences, UTF-8 assembly, bracketed paste, line
assembly, mouse and Kitty protocol parsing) and proofs about it.

Go strings are byte sequences; keys are therefore modelled as `List Nat`
(each entry one byte, 0..255).  `kb s` is the byte sequence of the ASCII
string literal `s`, used to write key names the way the source does.
-/

/-- UTF-8 encoding of a code point, as Go produces for `string(rune(c))`
on valid scalar values (handler.go only feeds it byte values 0..255 and
assembled buffers). -/
def encChar (c : Nat) : List Nat :=
  if c < 0x80 then [c]
  else if c < 0x800 then [0xC0 + c / 64, 0x80 + c % 64]
  else if c < 0x10000 then [0xE0 + c / 4096, 0x80 + (c / 64) % 64, 0x80 + c % 64]
  else [0xF0 + c / 262144, 0x80 + (c / 4096) % 64, 0x80 + (c / 64) % 64, 0x80 + c % 64]

/-- Byte sequence of a Lean string literal (used for the ASCII key names
and escape sequences appearing literally in handler.go). -/
def kb (s : String) : List Nat :=
  (s.data.map (fun c => encChar c.toNat)).flatten

/-- Decimal digits of a natural number, as bytes (Go `fmt.Sprintf("%d", n)`
for non-negative values). -/
def natDec (n : Nat) : List Nat :=
  (Nat.toDigits 10 n).map Char.toNat

/-- Decimal rendering of an integer, as bytes (Go `fmt.Sprintf("%d", i)`). -/
def intDec (i : Int) : List Nat :=
  if i < 0 then 45 :: natDec i.natAbs else natDec i.natAbs

/-- Go `unicode/utf8.DecodeRune` / `DecodeRuneInString`: decode the first
rune of a byte sequence.  Returns `(rune, size)`; on empty input
`(RuneError, 0)`, on malformed input (bad lead, bad continuation,
overlong form, surrogate, out of range, or truncated sequence)
`(RuneError, 1)`, where RuneError = U+FFFD. -/
def utf8DecodeRune (p : List Nat) : Nat × Nat :=
  match p with
  | [] => (0xFFFD, 0)
  | b0 :: rest =>
    if b0 < 0x80 then (b0, 1)
    else if 0xC2 ≤ b0 ∧ b0 ≤ 0xDF then
      match rest with
      | b1 :: _ =>
        if 0x80 ≤ b1 ∧ b1 ≤ 0xBF then ((b0 % 32) * 64 + b1 % 64, 2) else (0xFFFD, 1)
      | [] => (0xFFFD, 1)
    else if 0xE0 ≤ b0 ∧ b0 ≤ 0xEF then
      match rest with
      | b1 :: rest2 =>
        -- acceptance range of the first continuation byte: E0 needs A0..BF
        -- (no overlong forms), ED needs 80..9F (no surrogates)
        if (if b0 = 0xE0 then 0xA0 else 0x80) ≤ b1 ∧ b1 ≤ (if b0 = 0xED then 0x9F else 0xBF) then
          match rest2 with
          | b2 :: _ =>
            if 0x80 ≤ b2 ∧ b2 ≤ 0xBF then ((b0 % 16) * 4096 + (b1 % 64) * 64 + b2 % 64, 3)
            else (0xFFFD, 1)
          | [] => (0xFFFD, 1)
        else (0xFFFD, 1)
      | [] => (0xFFFD, 1)
    else if 0xF0 ≤ b0 ∧ b0 ≤ 0xF4 then
      match rest with
      | b1 :: rest2 =>
        -- F0 needs 90..BF (no overlong forms), F4 needs 80..8F (≤ U+10FFFF)
        if (if b0 = 0xF0 then 0x90 else 0x80) ≤ b1 ∧ b1 ≤ (if b0 = 0xF4 then 0x8F else 0xBF) then
          match rest2 with
          | b2 :: rest3 =>
            if 0x80 ≤ b2 ∧ b2 ≤ 0xBF then
              match rest3 with
              | b3 :: _ =>
                if 0x80 ≤ b3 ∧ b3 ≤ 0xBF then
                  ((b0 % 8) * 262144 + (b1 % 64) * 4096 + (b2 % 64) * 64 + b3 % 64, 4)
                else (0xFFFD, 1)
              | [] => (0xFFFD, 1)
            else (0xFFFD, 1)
          | [] => (0xFFFD, 1)
        else (0xFFFD, 1)
      | [] => (0xFFFD, 1)
    else (0xFFFD, 1)

/-- Go `unicode/utf8.RuneLen`: number of bytes of the encoding of a code
point, `none` for surrogates and out-of-range values (Go returns -1,
which can never equal a byte length). -/
def utf8RuneLen (r : Nat) : Option Nat :=
  if r < 0x80 then some 1
  else if r < 0x800 then some 2
  else if 0xD800 ≤ r ∧ r < 0xE000 then none
  else if r < 0x10000 then some 3
  else if r < 0x110000 then some 4
  else none

/-- Static escape-sequence binding table (`escBindings` in handler.go): a
map from exact escape sequences to key names; modelled as an association
list with the map's (distinct) keys. -/
def escBindings : List (List Nat × List Nat) :=
  [ (kb "\x1b[A", kb "Up"), (kb "\x1b[B", kb "Down"),
    (kb "\x1b[C", kb "Right"), (kb "\x1b[D", kb "Left"),
    (kb "\x1b[1;2A", kb "S-Up"), (kb "\x1b[1;2B", kb "S-Down"),
    (kb "\x1b[1;2C", kb "S-Right"), (kb "\x1b[1;2D", kb "S-Left"),
    (kb "\x1b[1;3A", kb "M-Up"), (kb "\x1b[1;3B", kb "M-Down"),
    (kb "\x1b[1;3C", kb "M-Right"), (kb "\x1b[1;3D", kb "M-Left"),
    (kb "\x1b[1;5A", kb "C-Up"), (kb "\x1b[1;5B", kb "C-Down"),
    (kb "\x1b[1;5C", kb "C-Right"), (kb "\x1b[1;5D", kb "C-Left"),
    (kb "\x1bOP", kb "F1"), (kb "\x1bOQ", kb "F2"),
    (kb "\x1bOR", kb "F3"), (kb "\x1bOS", kb "F4"),
    (kb "\x1b[15~", kb "F5"), (kb "\x1b[17~", kb "F6"),
    (kb "\x1b[18~", kb "F7"), (kb "\x1b[19~", kb "F8"),
    (kb "\x1b[20~", kb "F9"), (kb "\x1b[21~", kb "F10"),
    (kb "\x1b[23~", kb "F11"), (kb "\x1b[24~", kb "F12"),
    (kb "\x1b[H", kb "Home"), (kb "\x1b[F", kb "End"),
    (kb "\x1b[1~", kb "Home"), (kb "\x1b[4~", kb "End"),
    (kb "\x1b[2~", kb "Insert"), (kb "\x1b[3~", kb "Delete"),
    (kb "\x1b[5~", kb "PageUp"), (kb "\x1b[6~", kb "PageDown"),
    (kb "\x1bOA", kb "Up"), (kb "\x1bOB", kb "Down"),
    (kb "\x1bOC", kb "Right"), (kb "\x1bOD", kb "Left") ]

/-- Exact-match lookup in an association list (a Go map read `m[k]`). -/
def lookupTable (m : List (List Nat × List Nat)) (k : List Nat) : Option (List Nat) :=
  match m.find? (fun e => e.1 = k) with
  | some e => some e.2
  | none => none

/-- Control-key name table (`controlKeys` in handler.go), keyed by byte. -/
def controlKeys (b : Nat) : Option (List Nat) :=
  if b = 0 then some (kb "^@")
  else if b = 8 then some (kb "Backspace")
  else if b = 9 then some (kb "Tab")
  else if b = 10 then some (kb "^J")
  else if b = 13 then some (kb "Enter")
  else if b = 27 then some (kb "Escape")
  else if b = 28 then some (kb "^\\")
  else if b = 29 then some (kb "^]")
  else if b = 30 then some (kb "^^")
  else if b = 31 then some (kb "^_")
  else if b = 127 then some (kb "Backspace")
  else if 1 ≤ b ∧ b ≤ 26 then some [94, 64 + b]  -- "^A" .. "^Z"
  else none

example : controlKeys 3 = some (kb "^C") := by decide

/-- macOS Option-key table (`macOSOptionChars` in handler.go): Unicode
code points produced by Option+key on a US layout, mapped to `M-` key
names.  Keyed by code point. -/
def macOSOptionChars : List (Nat × List Nat) :=
  [ ('å'.toNat, kb "M-a"), ('∫'.toNat, kb "M-b"), ('ç'.toNat, kb "M-c"),
    ('∂'.toNat, kb "M-d"), ('´'.toNat, kb "M-e"), ('ƒ'.toNat, kb "M-f"),
    ('©'.toNat, kb "M-g"), ('˙'.toNat, kb "M-h"), ('ˆ'.toNat, kb "M-i"),
    ('∆'.toNat, kb "M-j"), ('˚'.toNat, kb "M-k"), ('¬'.toNat, kb "M-l"),
    ('µ'.toNat, kb "M-m"), ('˜'.toNat, kb "M-n"), ('ø'.toNat, kb "M-o"),
    ('π'.toNat, kb "M-p"), ('œ'.toNat, kb "M-q"), ('®'.toNat, kb "M-r"),
    ('ß'.toNat, kb "M-s"), ('†'.toNat, kb "M-t"), ('¨'.toNat, kb "M-u"),
    ('√'.toNat, kb "M-v"), ('∑'.toNat, kb "M-w"), ('≈'.toNat, kb "M-x"),
    ('¥'.toNat, kb "M-y"), ('Ω'.toNat, kb "M-z"),
    ('Å'.toNat, kb "M-A"), ('ı'.toNat, kb "M-B"), ('Ç'.toNat, kb "M-C"),
    ('Î'.toNat, kb "M-D"), ('Ï'.toNat, kb "M-F"), ('˝'.toNat, kb "M-G"),
    ('Ó'.toNat, kb "M-H"), ('Ô'.toNat, kb "M-J"), (0xF8FF, kb "M-K"),
    ('Ò'.toNat, kb "M-L"), ('Â'.toNat, kb "M-M"), ('Ø'.toNat, kb "M-O"),
    ('∏'.toNat, kb "M-P"), ('Œ'.toNat, kb "M-Q"), ('‰'.toNat, kb "M-R"),
    ('Í'.toNat, kb "M-S"), ('ˇ'.toNat, kb "M-T"), ('◊'.toNat, kb "M-V"),
    ('„'.toNat, kb "M-W"), ('˛'.toNat, kb "M-X"), ('Á'.toNat, kb "M-Y"),
    ('¸'.toNat, kb "M-Z"),
    ('¡'.toNat, kb "M-1"), ('™'.toNat, kb "M-2"), ('£'.toNat, kb "M-3"),
    ('¢'.toNat, kb "M-4"), ('∞'.toNat, kb "M-5"), ('§'.toNat, kb "M-6"),
    ('¶'.toNat, kb "M-7"), ('•'.toNat, kb "M-8"), ('ª'.toNat, kb "M-9"),
    ('º'.toNat, kb "M-0"),
    ('–'.toNat, kb "M--"), ('≠'.toNat, kb "M-="), (0x201C, kb "M-["),
    (0x2019, kb "M-]"), ('«'.toNat, kb "M-\\"), ('…'.toNat, kb "M-;"),
    ('æ'.toNat, kb "M-'"), ('≤'.toNat, kb "M-,"), ('≥'.toNat, kb "M-."),
    ('÷'.toNat, kb "M-/"), ('`'.toNat, kb "M-`") ]

/-- Lookup in `macOSOptionChars` by code point. -/
def lookupOption (r : Nat) : Option (List Nat) :=
  match macOSOptionChars.find? (fun e => e.1 = r) with
  | some e => some e.2
  | none => none

/-- Kitty protocol special-key table (`kittySpecialKeys` in handler.go). -/
def kittySpecialKeys (k : Nat) : Option (List Nat) :=
  if k = 9 then some (kb "Tab")
  else if k = 13 then some (kb "Enter")
  else if k = 27 then some (kb "Escape")
  else if k = 32 then some (kb "Space")
  else if k = 127 then some (kb "Backspace")
  else if k = 57358 then some (kb "CapsLock")
  else if k = 57359 then some (kb "ScrollLock")
  else if k = 57360 then some (kb "NumLock")
  else if k = 57361 then some (kb "PrintScreen")
  else if k = 57362 then some (kb "Pause")
  else if k = 57363 then some (kb "Menu")
  else if 57364 ≤ k ∧ k ≤ 57375 then some (kb "F" ++ natDec (k - 57363))  -- F1..F12
  else if 57376 ≤ k ∧ k ≤ 57383 then some (kb "F" ++ natDec (k - 57363))  -- F13..F20
  else if k = 57414 then some (kb "Return")
  else if k = 57417 then some (kb "Up")
  else if k = 57418 then some (kb "Down")
  else if k = 57419 then some (kb "Left")
  else if k = 57420 then some (kb "Right")
  else if k = 57421 then some (kb "PageUp")
  else if k = 57422 then some (kb "PageDown")
  else if k = 57423 then some (kb "Home")
  else if k = 57424 then some (kb "End")
  else if k = 57425 then some (kb "Insert")
  else if k = 57426 then some (kb "Delete")
  else none

example : kittySpecialKeys 57364 = some (kb "F1") := by decide

example : kittySpecialKeys 57383 = some (kb "F20") := by decide

/-- Kitty protocol modifier-key table (`kittyModifierKeys` in handler.go):
keycode to (modifier name, side). -/
def kittyModifierKeys (k : Nat) : Option (List Nat × List Nat) :=
  if k = 57441 then some (kb "Shift", kb "Left")
  else if k = 57442 then some (kb "Ctrl", kb "Left")
  else if k = 57443 then some (kb "Alt", kb "Left")
  else if k = 57444 then some (kb "Super", kb "Left")
  else if k = 57445 then some (kb "Hyper", kb "Left")
  else if k = 57446 then some (kb "Meta", kb "Left")
  else if k = 57447 then some (kb "Shift", kb "Right")
  else if k = 57448 then some (kb "Ctrl", kb "Right")
  else if k = 57449 then some (kb "Alt", kb "Right")
  else if k = 57450 then some (kb "Super", kb "Right")
  else if k = 57451 then some (kb "Hyper", kb "Right")
  else if k = 57452 then some (kb "Meta", kb "Right")
  else none

/-- `symbolShiftMap` in handler.go: unshifted symbol keycode to shifted. -/
def symbolShiftMap (s : Nat) : Option Nat :=
  if s = '`'.toNat then some '~'.toNat
  else if s = ','.toNat then some '<'.toNat
  else if s = '.'.toNat then some '>'.toNat
  else if s = '/'.toNat then some '?'.toNat
  else if s = ';'.toNat then some ':'.toNat
  else if s = 0x27 then some 0x22         -- quote to double quote
  else if s = '['.toNat then some 0x7B    -- left bracket to left brace
  else if s = ']'.toNat then some 0x7D    -- right bracket to right brace
  else if s = '\\'.toNat then some '|'.toNat
  else if s = '-'.toNat then some '_'.toNat
  else if s = '='.toNat then some '+'.toNat
  else none

/-- ASCII uppercasing of a byte string (Go `strings.ToUpper` restricted
to the ASCII key names it is applied to in handler.go). -/
def toUpperBytes (s : List Nat) : List Nat :=
  s.map (fun c => if 97 ≤ c ∧ c ≤ 122 then c - 32 else c)

/-- `numberShiftMap` in handler.go: digit keycode to shifted symbol. -/
def numberShiftMap (n : Nat) : Option Nat :=
  if n = '1'.toNat then some '!'.toNat
  else if n = '2'.toNat then some '@'.toNat
  else if n = '3'.toNat then some '#'.toNat
  else if n = '4'.toNat then some '$'.toNat
  else if n = '5'.toNat then some '%'.toNat
  else if n = '6'.toNat then some '^'.toNat
  else if n = '7'.toNat then some '&'.toNat
  else if n = '8'.toNat then some '*'.toNat
  else if n = '9'.toNat then some '('.toNat
  else if n = '0'.toNat then some ')'.toNat
  else none



/-- `parseAltSequence` in handler.go: ESC followed by exactly one byte is
an Alt (Meta) combination.  The source's explicit symbol cases other than
space all coincide with its final printable-ASCII fallback (each listed
symbol `c` maps to `M-c`), so they are collapsed into that fallback here.  -/
def parseAltSequence (seq : List Nat) : Option (List Nat) :=
  match seq with
  | [27, c] =>
    if 97 ≤ c ∧ c ≤ 122 then some (kb "M-" ++ [c])          -- lowercase letters
    else if 65 ≤ c ∧ c ≤ 90 then some (kb "M-S-" ++ [c + 32]) -- uppercase: shift implied
    else if 48 ≤ c ∧ c ≤ 57 then some (kb "M-" ++ [c])      -- digits
    else if c = 32 then some (kb "M-Space")
    else if c = 9 then some (kb "M-Tab")
    else if c = 13 then some (kb "M-Enter")
    else if c = 127 then some (kb "M-Backspace")
    else if c = 8 then some (kb "M-Backspace")
    else if c = 27 then some (kb "M-Escape")
    else if 1 ≤ c ∧ c ≤ 26 then some (kb "M-^" ++ [64 + c]) -- other control chars
    else if 0x20 ≤ c ∧ c < 0x7F then some (kb "M-" ++ [c])  -- remaining printable ASCII
    else none
  | _ => none

/-- `splitCSIParams` in handler.go: split a parameter string at each
semicolon (empty input gives no parts; empty parts are kept). -/
def splitCSIParams (params : List Nat) : List (List Nat) :=
  if params = [] then [] else params.splitOn 59

/-- Digit-string accumulator used by `parseModifierParam`: `none` as soon
as a non-digit appears (the source returns its fallback 1 there). -/
def parseDigitsAcc (acc : Nat) : List Nat → Option Nat
  | [] => some acc
  | c :: rest => if 48 ≤ c ∧ c ≤ 57 then parseDigitsAcc (acc * 10 + (c - 48)) rest else none

/-- `parseModifierParam` in handler.go: parse a decimal parameter,
falling back to 1 on empty input, on any non-digit, and on values below
1 (machine-int overflow of Go is not modelled; terminal parameters are
small). -/
def parseModifierParam (s : List Nat) : Nat :=
  if s = [] then 1
  else match parseDigitsAcc 0 s with
    | none => 1
    | some m => if m < 1 then 1 else m

/-- `modifierPrefix` in handler.go: xterm modifier code to prefix string.
Bits of `mod - 1`: bit0 Shift `S-`, bit1 Alt `M-`, bit2 Control `C-`,
bit3 Super `s-`, concatenated in that order. -/
def modifierPrefix (mo : Nat) : List Nat :=
  if mo < 2 then []
  else
    let m := mo - 1
    (if m % 2 = 1 then kb "S-" else []) ++
    (if m / 2 % 2 = 1 then kb "M-" else []) ++
    (if m / 4 % 2 = 1 then kb "C-" else []) ++
    (if m / 8 % 2 = 1 then kb "s-" else [])

/-- `parseModifiedCursorKey` in handler.go: `ESC [ 1 ; mod A-D`. -/
def parseModifiedCursorKey (finalByte : Nat) (parts : List (List Nat)) : Option (List Nat) :=
  let baseName? : Option (List Nat) :=
    if finalByte = 65 then some (kb "Up")
    else if finalByte = 66 then some (kb "Down")
    else if finalByte = 67 then some (kb "Right")
    else if finalByte = 68 then some (kb "Left")
    else none
  match baseName? with
  | none => none
  | some baseName =>
    if parts.length = 0 then some baseName
    else if parts.length ≠ 2 then none
    else some (modifierPrefix (parseModifierParam (parts.getD 1 [])) ++ baseName)

/-- `parseModifiedHomeEnd` in handler.go: `ESC [ 1 ; mod H|F`. -/
def parseModifiedHomeEnd (finalByte : Nat) (parts : List (List Nat)) : Option (List Nat) :=
  let baseName? : Option (List Nat) :=
    if finalByte = 72 then some (kb "Home")
    else if finalByte = 70 then some (kb "End")
    else none
  match baseName? with
  | none => none
  | some baseName =>
    if parts.length = 0 then some baseName
    else if parts.length ≠ 2 then none
    else some (modifierPrefix (parseModifierParam (parts.getD 1 [])) ++ baseName)

/-- `parseModifiedF1toF4` in handler.go: `ESC [ 1 ; mod P-S`. -/
def parseModifiedF1toF4 (finalByte : Nat) (parts : List (List Nat)) : Option (List Nat) :=
  let baseName? : Option (List Nat) :=
    if finalByte = 80 then some (kb "F1")
    else if finalByte = 81 then some (kb "F2")
    else if finalByte = 82 then some (kb "F3")
    else if finalByte = 83 then some (kb "F4")
    else none
  match baseName? with
  | none => none
  | some baseName =>
    if parts.length = 0 then some baseName
    else if parts.length ≠ 2 then none
    else some (modifierPrefix (parseModifierParam (parts.getD 1 [])) ++ baseName)

/-- The `tildeKeys` table of `parseModifiedTildeKey` in handler.go. -/
def tildeKeys (n : Nat) : Option (List Nat) :=
  if n = 1 then some (kb "Home")
  else if n = 2 then some (kb "Insert")
  else if n = 3 then some (kb "Delete")
  else if n = 4 then some (kb "End")
  else if n = 5 then some (kb "PageUp")
  else if n = 6 then some (kb "PageDown")
  else if n = 15 then some (kb "F5")
  else if n = 17 then some (kb "F6")
  else if n = 18 then some (kb "F7")
  else if n = 19 then some (kb "F8")
  else if n = 20 then some (kb "F9")
  else if n = 21 then some (kb "F10")
  else if n = 23 then some (kb "F11")
  else if n = 24 then some (kb "F12")
  else none

/-- `parseModifiedTildeKey` in handler.go: `ESC [ num ; mod ~`. -/
def parseModifiedTildeKey (parts : List (List Nat)) : Option (List Nat) :=
  if parts.length = 0 then none
  else
    match tildeKeys (parseModifierParam (parts.getD 0 [])) with
    | none => none
    | some baseName =>
      if parts.length = 1 then some baseName
      else if parts.length = 2 then
        some (modifierPrefix (parseModifierParam (parts.getD 1 [])) ++ baseName)
      else none

/-- `formatLetterKey` in handler.go: a lowercase letter byte with a Kitty
modifier code.  Control renders as `^` against the uppercased letter
(with `S-` before it when Shift is also held), Shift alone uppercases
the letter, Alt prepends `M-`, Super prepends `s-` outermost. -/
def formatLetterKey (letter : Nat) (mo : Nat) : List Nat :=
  let m := (if mo < 1 then 1 else mo) - 1
  let hasShift := m % 2 = 1
  let hasAlt := m / 2 % 2 = 1
  let hasCtrl := m / 4 % 2 = 1
  let hasSuper := m / 8 % 2 = 1
  let keyPart :=
    if hasCtrl then
      (if hasShift then kb "S-^" ++ [letter - 32] else kb "^" ++ [letter - 32])
    else if hasShift then [letter - 32]
    else [letter]
  (if hasSuper then kb "s-" else []) ++ (if hasAlt then kb "M-" else []) ++ keyPart

/-- `isSymbolKey` in handler.go (the Go code switches on `byte(keycode)`,
hence the truncation to the low 8 bits). -/
def isSymbolKey (keycode : Nat) : Bool :=
  let b := keycode % 256
  decide (b = 96 ∨ b = 44 ∨ b = 46 ∨ b = 47 ∨ b = 59 ∨ b = 39 ∨
    b = 91 ∨ b = 93 ∨ b = 92 ∨ b = 45 ∨ b = 61)

/-- `isNumberKey` in handler.go. -/
def isNumberKey (keycode : Nat) : Bool :=
  decide (48 ≤ keycode ∧ keycode ≤ 57)

/-- `formatSymbolKey` in handler.go. -/
def formatSymbolKey (symbol : Nat) (mo : Nat) : List Nat :=
  let m := (if mo < 1 then 1 else mo) - 1
  let hasShift := m % 2 = 1
  let hasAlt := m / 2 % 2 = 1
  let hasCtrl := m / 4 % 2 = 1
  let hasSuper := m / 8 % 2 = 1
  let displayChar := if hasShift then (symbolShiftMap symbol).getD symbol else symbol
  let keyPart := if hasCtrl then kb "^" ++ [displayChar] else [displayChar]
  (if hasSuper then kb "s-" else []) ++ (if hasAlt then kb "M-" else []) ++ keyPart

/-- `formatNumberKey` in handler.go. -/
def formatNumberKey (number : Nat) (mo : Nat) : List Nat :=
  let m := (if mo < 1 then 1 else mo) - 1
  let hasShift := m % 2 = 1
  let hasAlt := m / 2 % 2 = 1
  let hasCtrl := m / 4 % 2 = 1
  let hasSuper := m / 8 % 2 = 1
  let displayChar := if hasShift then (numberShiftMap number).getD number else number
  let keyPart := if hasCtrl then kb "^" ++ [displayChar] else [displayChar]
  (if hasSuper then kb "s-" else []) ++ (if hasAlt then kb "M-" else []) ++ keyPart

/-- Go `strconv.Atoi` on a byte string: optional sign then at least one
digit (machine-int overflow not modelled). -/
def atoi (s : List Nat) : Option Int :=
  match s with
  | [] => none
  | c :: rest =>
    let signedDigits : Bool × List Nat :=
      if c = 45 then (true, rest) else if c = 43 then (false, rest) else (false, s)
    if signedDigits.2 = [] then none
    else match parseDigitsAcc 0 signedDigits.2 with
      | none => none
      | some n => some (if signedDigits.1 then -(n : Int) else (n : Int))

/-- `parseKittyProtocol` in handler.go: `CSI keycode ; modifiers : event-type u`.
`decodeMac` is the handler's `decodeMacOSOption` flag. -/
def parseKittyProtocol (decodeMac : Bool) (parts : List (List Nat)) : Option (List Nat) :=
  match parts with
  | [] => none
  | part0 :: restParts =>
    -- extended format "keycode:shifted:base": only the first field is used
    let keycode := parseModifierParam (part0.takeWhile (fun c => c ≠ 58))
    -- second part: "modifiers" or "modifiers:event-type"
    let modEt : Nat × Int :=
      match restParts with
      | [] => (1, 1)
      | modPart :: _ =>
        if modPart.contains 58 then
          let mo := parseModifierParam (modPart.takeWhile (fun c => c ≠ 58))
          match atoi ((modPart.dropWhile (fun c => c ≠ 58)).drop 1) with
          | some v => (mo, v)
          | none => (mo, 1)
        else (parseModifierParam modPart, 1)
    let mo := modEt.1
    let eventType := modEt.2
    match kittyModifierKeys keycode with
    | some info =>
      let pre :=
        if info.1 = kb "Shift" then kb "S"
        else if info.1 = kb "Ctrl" then kb "C"
        else if info.1 = kb "Alt" then kb "A"
        else if info.1 = kb "Super" then kb "s"
        else if info.1 = kb "Meta" then kb "M"
        else if info.1 = kb "Hyper" then kb "H"
        else []
      let eventSuffix :=
        if eventType = 1 then kb "-Press"
        else if eventType = 2 then kb "-Repeat"
        else if eventType = 3 then kb "-Release"
        else []
      some (pre ++ eventSuffix ++ kb ":" ++ info.2)
    | none =>
      let eventSuffix :=
        if eventType = 3 then kb ":Release"
        else if eventType = 2 then kb ":Repeat"
        else []
      if 97 ≤ keycode ∧ keycode ≤ 122 then
        some (formatLetterKey (keycode % 256) mo ++ eventSuffix)
      else if 65 ≤ keycode ∧ keycode ≤ 90 then
        some (formatLetterKey ((keycode + 32) % 256) mo ++ eventSuffix)
      else if isSymbolKey keycode then
        some (formatSymbolKey (keycode % 256) mo ++ eventSuffix)
      else if isNumberKey keycode then
        some (formatNumberKey (keycode % 256) mo ++ eventSuffix)
      else
        let baseName? : Option (List Nat) :=
          match kittySpecialKeys keycode with
          | some n => some n
          | none =>
            if 32 ≤ keycode ∧ keycode < 0x110000 then some (encChar keycode) else none
        match baseName? with
        | none => none
        | some baseName =>
          -- macOS Option character decoding inside the Kitty path
          let decodedBase? : Option (List Nat) :=
            if decodeMac ∧ 0 < baseName.length then
              let rs := utf8DecodeRune baseName
              if rs.2 = baseName.length ∧ rs.1 ≠ 0xFFFD then
                match lookupOption rs.1 with
                | some d => if 3 ≤ d.length ∧ d.take 2 = kb "M-" then some (d.drop 2) else none
                | none => none
              else none
            else none
          match decodedBase? with
          | some baseChar =>
            let hasCtrl := 1 < mo ∧ (mo - 1) / 4 % 2 = 1
            let hasShift := 1 < mo ∧ (mo - 1) % 2 = 1
            some (kb "M-" ++ (if hasShift then kb "S-" else []) ++
              (if hasCtrl then kb "^" ++ toUpperBytes baseChar else baseChar) ++ eventSuffix)
          | none =>
            if mo ≤ 1 then some (baseName ++ eventSuffix)
            else some (modifierPrefix mo ++ baseName ++ eventSuffix)

/-- Bit `k` of an integer in two's complement (Go `i & (1 << k) != 0`,
for the single-bit mouse masks 4, 8, 16, 32, 64). -/
def intBit (i : Int) (k : Nat) : Bool :=
  decide ((2 : Int) ^ k ≤ i.emod (2 ^ (k + 1)))

/-- `formatMouseEvent` in handler.go: decode an X10/SGR button code and
coordinates into a (position key, action key) pair.  For drag events the
position key is empty and the position is embedded in the action key. -/
def formatMouseEvent (cb cx cy : Int) (isRelease : Bool) : List Nat × List Nat :=
  let hasShift := intBit cb 2   -- cb & 4
  let hasAlt := intBit cb 3     -- cb & 8
  let hasCtrl := intBit cb 4    -- cb & 16
  let pre := (if hasShift then kb "S-" else []) ++ (if hasAlt then kb "M-" else []) ++
    (if hasCtrl then kb "C-" else [])
  let buttonBits := (cb.emod 4).toNat   -- cb & 3
  let isMotion := intBit cb 5   -- cb & 32
  let isScroll := intBit cb 6   -- cb & 64
  if isScroll then
    let action := if buttonBits = 0 then kb "MouseScrollUp" else kb "MouseScrollDown"
    (kb "Mouse@" ++ intDec cx ++ kb "," ++ intDec cy, pre ++ action)
  else if isMotion then
    let action :=
      if buttonBits = 0 then kb "MouseLeftDrag"
      else if buttonBits = 1 then kb "MouseMiddleDrag"
      else if buttonBits = 2 then kb "MouseRightDrag"
      else kb "MouseDrag"
    ([], pre ++ action ++ kb "@" ++ intDec cx ++ kb "," ++ intDec cy)
  else if isRelease then
    let action :=
      if buttonBits = 0 then kb "MouseLeftRelease"
      else if buttonBits = 1 then kb "MouseMiddleRelease"
      else if buttonBits = 2 then kb "MouseRightRelease"
      else kb "MouseRelease"
    (kb "Mouse@" ++ intDec cx ++ kb "," ++ intDec cy, pre ++ action)
  else
    let action :=
      if buttonBits = 0 then kb "MouseLeftPress"
      else if buttonBits = 1 then kb "MouseMiddlePress"
      else if buttonBits = 2 then kb "MouseRightPress"
      else kb "MousePress"
    (kb "Mouse@" ++ intDec cx ++ kb "," ++ intDec cy, pre ++ action)

/-- `parseMouseSGR` in handler.go: `ESC [ < Cb ; Cx ; Cy M/m`. -/
def parseMouseSGR (seq : List Nat) : Option (List Nat × List Nat) :=
  if seq.length < 6 ∨ seq.getD 0 0 ≠ 27 ∨ seq.getD 1 0 ≠ 91 ∨ seq.getD 2 0 ≠ 60 then none
  else
    let finalByte := seq.getD (seq.length - 1) 0
    if finalByte ≠ 77 ∧ finalByte ≠ 109 then none
    else
      let parts := splitCSIParams ((seq.drop 3).take (seq.length - 4))
      if parts.length ≠ 3 then none
      else
        some (formatMouseEvent (parseModifierParam (parts.getD 0 []) : Nat)
          (parseModifierParam (parts.getD 1 []) : Nat)
          (parseModifierParam (parts.getD 2 []) : Nat) (finalByte = 109))

/-- `parseMouseX10` in handler.go: `ESC [ M Cb Cx Cy`, all biased by 32
(the subtraction can go below zero, hence the integer model). -/
def parseMouseX10 (seq : List Nat) : Option (List Nat × List Nat) :=
  if seq.length ≠ 6 ∨ seq.getD 0 0 ≠ 27 ∨ seq.getD 1 0 ≠ 91 ∨ seq.getD 2 0 ≠ 77 then none
  else
    let cb : Int := (seq.getD 3 0 : Int) - 32
    let cx : Int := (seq.getD 4 0 : Int) - 32
    let cy : Int := (seq.getD 5 0 : Int) - 32
    some (formatMouseEvent cb cx cy (cb.emod 4 = 3))

/-- `couldBeEscapePrefix` in handler.go: whether the accumulated buffer
could still grow into a valid escape sequence. -/
def couldBeEscapePrefix (seq : List Nat) : Bool :=
  if escBindings.any (fun e =>
      decide (seq.length < e.1.length) && decide (e.1.take seq.length = seq)) then true
  else if 2 ≤ seq.length ∧ seq.getD 0 0 = 27 ∧ seq.getD 1 0 = 27 then
    -- macOS Option sends ESC ESC [ X
    if seq.length = 2 then true
    else if seq.getD 2 0 = 91 then
      if seq.length < 4 then true
      else ! decide (0x40 ≤ seq.getD (seq.length - 1) 0 ∧ seq.getD (seq.length - 1) 0 ≤ 0x7E)
    else false  -- the source falls through to the CSI check, which cannot match here
  else if 2 ≤ seq.length ∧ seq.getD 0 0 = 27 ∧ seq.getD 1 0 = 91 then
    let body := seq.drop 2
    if 1 ≤ body.length ∧ body.getD 0 0 = 60 then       -- SGR mouse: wait for M/m
      ! decide (body.getD (body.length - 1) 0 = 77 ∨ body.getD (body.length - 1) 0 = 109)
    else if 1 ≤ body.length ∧ body.getD 0 0 = 77 then  -- X10 mouse: M plus 3 bytes
      decide (body.length < 4)
    else if seq.length < 3 then true
    else ! decide (0x40 ≤ seq.getD (seq.length - 1) 0 ∧ seq.getD (seq.length - 1) 0 ≤ 0x7E)
  else false

/-- `parseModifiedCSI` in handler.go.  Returns the keys the source emits
internally before returning (macOS `Special`, mouse position/action
keys) together with the returned key (`[]` models Go's empty string, in
which case the caller emits nothing further). -/
def parseModifiedCSI (decodeMac : Bool) (seq : List Nat) : Option (List (List Nat) × List Nat) :=
  -- macOS Option+arrow: ESC ESC [ X, emitting "Special" first
  let macKey? : Option (List Nat) :=
    if seq.length = 4 ∧ seq.getD 0 0 = 27 ∧ seq.getD 1 0 = 27 ∧ seq.getD 2 0 = 91 then
      if seq.getD 3 0 = 65 then some (kb "M-Up")
      else if seq.getD 3 0 = 66 then some (kb "M-Down")
      else if seq.getD 3 0 = 67 then some (kb "M-Right")
      else if seq.getD 3 0 = 68 then some (kb "M-Left")
      else if seq.getD 3 0 = 72 then some (kb "M-Home")
      else if seq.getD 3 0 = 70 then some (kb "M-End")
      else none
    else none
  match macKey? with
  | some key => some ([kb "Special"], key)
  | none =>
    if seq.length < 3 ∨ seq.getD 0 0 ≠ 27 ∨ seq.getD 1 0 ≠ 91 then none
    else
      let body := seq.drop 2
      if body.length = 0 then none
      else
        -- SGR mouse: ESC [ < ... M/m
        let sgr? : Option (List Nat × List Nat) :=
          if 4 ≤ body.length ∧ body.getD 0 0 = 60 ∧
              (body.getD (body.length - 1) 0 = 77 ∨ body.getD (body.length - 1) 0 = 109) then
            parseMouseSGR seq
          else none
        match sgr? with
        | some pa => some ((if pa.1 = [] then [] else [pa.1]) ++ [pa.2], [])
        | none =>
          -- X10 mouse: ESC [ M Cb Cx Cy
          let x10? : Option (List Nat × List Nat) :=
            if body.length = 4 ∧ body.getD 0 0 = 77 then parseMouseX10 seq else none
          match x10? with
          | some pa => some ((if pa.1 = [] then [] else [pa.1]) ++ [pa.2], [])
          | none =>
            if body = [90] then some ([], kb "S-Tab")  -- ESC [ Z
            else
              let finalByte := body.getD (body.length - 1) 0
              if finalByte < 0x40 ∨ 0x7E < finalByte then none
              else
                let parts := splitCSIParams (body.take (body.length - 1))
                let ret? : Option (List Nat) :=
                  if finalByte = 65 ∨ finalByte = 66 ∨ finalByte = 67 ∨ finalByte = 68 then
                    parseModifiedCursorKey finalByte parts
                  else if finalByte = 72 ∨ finalByte = 70 then
                    parseModifiedHomeEnd finalByte parts
                  else if finalByte = 80 ∨ finalByte = 81 ∨ finalByte = 82 ∨ finalByte = 83 then
                    parseModifiedF1toF4 finalByte parts
                  else if finalByte = 126 then parseModifiedTildeKey parts
                  else if finalByte = 117 then parseKittyProtocol decodeMac parts
                  else none
                match ret? with
                | some key => some ([], key)
                | none => none

/-- Configuration of a `Handler` as far as byte processing is concerned:
the `decodeMacOSOption` flag, whether an `OnPasteChunk` callback is set,
and `pasteChunkSize` (`New` forces it to be at least 1). -/
structure HandlerCfg where
  decodeMacOSOption : Bool
  hasOnPasteChunk : Bool
  pasteChunkSize : Nat
deriving DecidableEq, Repr

/-- An observable emission of the handler: a key event (the `OnKey`
callback / `Keys` channel), a completed line (`OnLine` / `Lines`), a
whole-paste delivery (`OnPaste`), an incremental paste chunk
(`OnPasteChunk`), or bytes written to the echo sink. -/
inductive Ev where
  | key (k : List Nat)
  | line (l : List Nat)
  | paste (content : List Nat)
  | chunk (content : List Nat) (isFinal : Bool)
  | echo (out : List Nat)
deriving DecidableEq, Repr

/-- The mutable decoding state of `Handler` (handler.go struct fields
that `processByte` and the line assembler read and write). -/
structure HState where
  inLineReadMode : Bool
  currentLine : List Nat
  charByteLengths : List Nat
  escBuffer : List Nat
  inEscape : Bool
  utf8Buffer : List Nat
  utf8Remaining : Nat
  inPaste : Bool
  pasteBuffer : List Nat
  fullPasteContent : List Nat
deriving DecidableEq, Repr

/-- The state a freshly created handler starts in (`New` in handler.go). -/
def initState : HState :=
  { inLineReadMode := false, currentLine := [], charByteLengths := [],
    escBuffer := [], inEscape := false, utf8Buffer := [], utf8Remaining := 0,
    inPaste := false, pasteBuffer := [], fullPasteContent := [] }

/-- `handleLineAssembly` in handler.go: route one key event into the
line buffer. -/
def handleLineAssembly (s : HState) (key : List Nat) : HState × List Ev :=
  if s.inLineReadMode = false then (s, [])
  else if key = kb "Enter" then
    ({ s with currentLine := [], charByteLengths := [] },
     [Ev.line s.currentLine, Ev.echo (kb "\r\n")])
  else if key = kb "Backspace" then
    if 0 < s.charByteLengths.length then
      let lastCharLen := s.charByteLengths.getLastD 0
      ({ s with currentLine := s.currentLine.take (s.currentLine.length - lastCharLen),
                charByteLengths := s.charByteLengths.take (s.charByteLengths.length - 1) },
       [Ev.echo (kb "\x08 \x08")])
    else (s, [])
  else if key = kb "^U" then
    ({ s with currentLine := [], charByteLengths := [] },
     s.charByteLengths.map (fun _ => Ev.echo (kb "\x08 \x08")))
  else if key = kb "^C" then
    ({ s with currentLine := [], charByteLengths := [] },
     [Ev.echo (kb "^C\r\n"), Ev.line []])
  else
    if 0 < key.length then
      let rs := utf8DecodeRune key
      if rs.1 ≠ 0xFFFD ∧ utf8RuneLen rs.1 = some key.length ∧ 32 ≤ rs.1 then
        ({ s with currentLine := s.currentLine ++ key,
                  charByteLengths := s.charByteLengths ++ [key.length] },
         [Ev.echo key])
      else (s, [])
    else (s, [])

/-- `emitKey` in handler.go: optional macOS Option decode, the `OnKey`
callback, then routing to the line assembler or the key sink. -/
def emitKey (cfg : HandlerCfg) (s : HState) (key : List Nat) : HState × List Ev :=
  let key :=
    if cfg.decodeMacOSOption ∧ 0 < key.length then
      let rs := utf8DecodeRune key
      if rs.2 = key.length ∧ rs.1 ≠ 0xFFFD then
        match lookupOption rs.1 with
        | some decoded => decoded
        | none => key
      else key
    else key
  if s.inLineReadMode then
    let se := handleLineAssembly s key
    (se.1, Ev.key key :: se.2)
  else (s, [Ev.key key])

/-- Emit a list of keys in order, threading the state. -/
def emitKeys (cfg : HandlerCfg) (s : HState) : List (List Nat) → HState × List Ev
  | [] => (s, [])
  | k :: rest =>
    let se := emitKey cfg s k
    let tail := emitKeys cfg se.1 rest
    (tail.1, se.2 ++ tail.2)

/-- The first rune of a non-empty byte sequence occupies at least one
byte (`utf8DecodeRune` never reports size 0 on non-empty input). -/
theorem one_le_utf8DecodeRune_snd (p : List Nat) (h : p ≠ []) : 1 ≤ (utf8DecodeRune p).2 := by
  match p with
  | [] => exact absurd rfl h
  | b0 :: rest =>
    simp only [utf8DecodeRune]
    repeat' split
    all_goals simp

/-- The key-re-emission loop of `emitPaste` in handler.go (Normal-mode
delivery of paste content as individual key events). -/
def emitPasteKeys (cfg : HandlerCfg) (s : HState) (content : List Nat) : HState × List Ev :=
  if h : content = [] then (s, [])
  else
    let rs := utf8DecodeRune content
    if rs.1 = 0xFFFD ∧ rs.2 = 1 then emitPasteKeys cfg s (content.drop 1)
    else
      let key? : Option (List Nat) :=
        if rs.1 = 13 then some (kb "Enter")
        else if rs.1 = 10 then some (kb "^J")
        else if rs.1 = 9 then some (kb "Tab")
        else if rs.1 = 0x7F then some (kb "Backspace")
        else if rs.1 < 32 then controlKeys rs.1
        else some (encChar rs.1)
      match key? with
      | some k =>
        let se := emitKey cfg s k
        let tail := emitPasteKeys cfg se.1 (content.drop rs.2)
        (tail.1, se.2 ++ tail.2)
      | none => emitPasteKeys cfg s (content.drop rs.2)
termination_by content.length
decreasing_by
  · simp only [List.length_drop]
    have := List.length_pos.mpr h
    omega
  · have h1 := one_le_utf8DecodeRune_snd content h
    simp only [List.length_drop]
    have := List.length_pos.mpr h
    omega
  · have h1 := one_le_utf8DecodeRune_snd content h
    simp only [List.length_drop]
    have := List.length_pos.mpr h
    omega

/-- The splice loop of `handlePasteLineAssembly` in handler.go. -/
def pasteLineLoop (s : HState) (content : List Nat) : HState × List Ev :=
  if h : content = [] then (s, [])
  else
    let rs := utf8DecodeRune content
    if rs.1 = 0xFFFD ∧ rs.2 = 1 then pasteLineLoop s (content.drop 1)
    else if rs.1 = 13 ∨ rs.1 = 10 then
      -- newline inside the paste: submit the line, skip the rest
      ({ s with currentLine := [], charByteLengths := [] },
       [Ev.line s.currentLine, Ev.echo (kb "\r\n")])
    else if 32 ≤ rs.1 ∨ rs.1 = 9 then
      let s1 := { s with currentLine := s.currentLine ++ content.take rs.2,
                         charByteLengths := s.charByteLengths ++ [rs.2] }
      let tail := pasteLineLoop s1 (content.drop rs.2)
      (tail.1, Ev.echo (encChar rs.1) :: tail.2)
    else pasteLineLoop s (content.drop rs.2)
termination_by content.length
decreasing_by
  · simp only [List.length_drop]
    have := List.length_pos.mpr h
    omega
  · have h1 := one_le_utf8DecodeRune_snd content h
    simp only [List.length_drop]
    have := List.length_pos.mpr h
    omega
  · have h1 := one_le_utf8DecodeRune_snd content h
    simp only [List.length_drop]
    have := List.length_pos.mpr h
    omega

/-- `handlePasteLineAssembly` in handler.go: splice pasted content
directly into the line buffer. -/
def handlePasteLineAssembly (s : HState) (content : List Nat) : HState × List Ev :=
  if s.inLineReadMode = false then (s, []) else pasteLineLoop s content

/-- `emitPaste` in handler.go: the `OnPaste` delivery followed by
re-emission (as keys in Normal mode, as a line splice in line mode). -/
def emitPaste (cfg : HandlerCfg) (s : HState) (content : List Nat) : HState × List Ev :=
  let tail :=
    if s.inLineReadMode then handlePasteLineAssembly s content
    else emitPasteKeys cfg s content
  (tail.1, Ev.paste content :: tail.2)

/-- `emitEscapeBuffer` in handler.go: flush the escape buffer as an
`Escape` key plus the remaining bytes as individual keys. -/
def emitEscapeBuffer (cfg : HandlerCfg) (s : HState) : HState × List Ev :=
  let ks := kb "Escape" ::
    (s.escBuffer.drop 1).filterMap (fun b =>
      if b < 32 ∨ b = 127 then controlKeys b else some (encChar b))
  let se := emitKeys cfg s ks
  ({ se.1 with escBuffer := [], inEscape := false }, se.2)

/-- The `inPaste` branch of `processByte` in handler.go: accumulate the
byte, detect the end marker on the buffer's 6-byte tail, otherwise emit
an incremental chunk when the buffer exceeds `pasteChunkSize + 7`. -/
def pasteStep (cfg : HandlerCfg) (s : HState) (b : Nat) : HState × List Ev :=
  let s := { s with pasteBuffer := s.pasteBuffer ++ [b],
                    fullPasteContent := s.fullPasteContent ++ [b] }
  if 6 ≤ s.pasteBuffer.length ∧
      s.pasteBuffer.drop (s.pasteBuffer.length - 6) = kb "\x1b[201~" then
    let remainingContent := s.pasteBuffer.take (s.pasteBuffer.length - 6)
    let fullContent := s.fullPasteContent.take (s.fullPasteContent.length - 6)
    let s1 := { s with inPaste := false, pasteBuffer := [], fullPasteContent := [] }
    let finalChunk := if cfg.hasOnPasteChunk then [Ev.chunk remainingContent true] else []
    let tail := emitPaste cfg s1 fullContent
    (tail.1, finalChunk ++ tail.2)
  else if cfg.hasOnPasteChunk ∧ cfg.pasteChunkSize + 7 ≤ s.pasteBuffer.length then
    ({ s with pasteBuffer := s.pasteBuffer.drop cfg.pasteChunkSize },
     [Ev.chunk (s.pasteBuffer.take cfg.pasteChunkSize) false])
  else (s, [])

/-- The `inEscape` branch of `processByte` in handler.go. -/
def escapeStep (cfg : HandlerCfg) (s : HState) (b : Nat) : HState × List Ev :=
  let s := { s with escBuffer := s.escBuffer ++ [b] }
  let seq := s.escBuffer
  if seq = kb "\x1b[200~" then
    ({ s with inEscape := false, escBuffer := [], inPaste := true,
              pasteBuffer := [], fullPasteContent := [] }, [])
  else
    match lookupTable escBindings seq with
    | some key =>
      let se := emitKey cfg s key
      ({ se.1 with escBuffer := [], inEscape := false }, se.2)
    | none =>
      if couldBeEscapePrefix seq then (s, [])
      else
        match parseModifiedCSI cfg.decodeMacOSOption seq with
        | some pr =>
          let se := emitKeys cfg s pr.1
          let se2 := if pr.2 ≠ [] then emitKey cfg se.1 pr.2 else (se.1, [])
          ({ se2.1 with escBuffer := [], inEscape := false }, se.2 ++ se2.2)
        | none =>
          match parseAltSequence seq with
          | some key =>
            let se := emitKey cfg s key
            ({ se.1 with escBuffer := [], inEscape := false }, se.2)
          | none => emitEscapeBuffer cfg s

/-- The UTF-8 lead-byte classification at the end of `processByte`. -/
def classifyLead (cfg : HandlerCfg) (s : HState) (b : Nat) : HState × List Ev :=
  if 0xC0 ≤ b ∧ b ≤ 0xDF then ({ s with utf8Buffer := [b], utf8Remaining := 1 }, [])
  else if 0xE0 ≤ b ∧ b ≤ 0xEF then ({ s with utf8Buffer := [b], utf8Remaining := 2 }, [])
  else if 0xF0 ≤ b ∧ b ≤ 0xF7 then ({ s with utf8Buffer := [b], utf8Remaining := 3 }, [])
  else emitKey cfg s (encChar b)

/-- The part of `processByte` in handler.go reached when neither
`inPaste` nor `inEscape` holds: escape start, control bytes, printable
ASCII, UTF-8 continuation, UTF-8 lead classification.  The source's
recursive `processByte` call on an invalid continuation byte is unfolded
here: at that point the state has no paste, escape or pending UTF-8
continuation and the byte is at least 0xC0, so the recursive call
reduces to the lead-byte classification. -/
def normalStep (cfg : HandlerCfg) (s : HState) (b : Nat) : HState × List Ev :=
  if b = 0x1B then ({ s with inEscape := true, escBuffer := [b] }, [])
  else if b < 32 ∨ b = 127 then
    match controlKeys b with
    | some key => emitKey cfg s key
    | none => emitKey cfg s (kb "^" ++ [b + 64])
  else if b < 128 then emitKey cfg s [b]
  else if 0 < s.utf8Remaining then
    if 0x80 ≤ b ∧ b ≤ 0xBF then
      let s := { s with utf8Buffer := s.utf8Buffer ++ [b],
                        utf8Remaining := s.utf8Remaining - 1 }
      if s.utf8Remaining = 0 then emitKey cfg { s with utf8Buffer := [] } s.utf8Buffer
      else (s, [])
    else
      let se := emitKeys cfg s (s.utf8Buffer.map encChar)
      let s1 := { se.1 with utf8Buffer := [], utf8Remaining := 0 }
      let tail := classifyLead cfg s1 b
      (tail.1, se.2 ++ tail.2)
  else classifyLead cfg s b

/-- `processByte` in handler.go: dispatch one input byte. -/
def processByte (cfg : HandlerCfg) (s : HState) (b : Nat) : HState × List Ev :=
  if s.inPaste then pasteStep cfg s b
  else if s.inEscape then escapeStep cfg s b
  else normalStep cfg s b

/-- Process a byte sequence strictly in order (the per-chunk loop of
`processLoop` in handler.go), collecting all emissions. -/
def processBytes (cfg : HandlerCfg) (s : HState) : List Nat → HState × List Ev
  | [] => (s, [])
  | b :: rest =>
    let se := processByte cfg s b
    let tail := processBytes cfg se.1 rest
    (tail.1, se.2 ++ tail.2)

/-- The escape-timeout case of `processLoop` in handler.go: when the
ambiguity timer fires with a pending escape buffer, try the Alt-sequence
parse and otherwise flush the buffer. -/
def timeoutFire (cfg : HandlerCfg) (s : HState) : HState × List Ev :=
  if s.inEscape ∧ 0 < s.escBuffer.length then
    match parseAltSequence s.escBuffer with
    | some key =>
      let se := emitKey cfg s key
      ({ se.1 with escBuffer := [], inEscape := false }, se.2)
    | none => emitEscapeBuffer cfg s
  else (s, [])

/-- `SetLineMode` in handler.go: entering line mode clears the line
buffer and its per-character byte lengths. -/
def setLineMode (s : HState) (enabled : Bool) : HState :=
  if enabled then { s with inLineReadMode := true, currentLine := [], charByteLengths := [] }
  else { s with inLineReadMode := false }

/-- The `Keys` emissions of an event list. -/
def keyEvents (evs : List Ev) : List (List Nat) :=
  evs.filterMap (fun e => match e with | Ev.key k => some k | _ => none)

/-- The `OnPaste` emissions of an event list. -/
def pasteEvents (evs : List Ev) : List (List Nat) :=
  evs.filterMap (fun e => match e with | Ev.paste c => some c | _ => none)

/-- The `OnPasteChunk` emissions of an event list, in order. -/
def chunkEvents (evs : List Ev) : List (List Nat) :=
  evs.filterMap (fun e => match e with | Ev.chunk c _ => some c | _ => none)

/-- Lifecycle state of a handler (`Start`/`Stop` in handler.go):
`originalTermState` models whether a saved terminal state is held. -/
structure CtrlState where
  running : Bool
  managesTerminal : Bool
  originalTermState : Bool
deriving DecidableEq, Repr

/-- `Start` in handler.go: a second start is a usage error; otherwise
raw mode is entered (when managed) and the reader/worker are started. -/
def startH (s : CtrlState) : Option String × CtrlState :=
  if s.running then (some "handler already running", s)
  else
    let ots := if s.managesTerminal then true else s.originalTermState
    (none, { s with running := true, originalTermState := ots })

/-- `Stop` in handler.go: stopping a non-running handler returns nil
immediately; otherwise the stop signal is sent and terminal state
restored (restoration success is assumed; its failure path only changes
the returned error). -/
def stopH (s : CtrlState) : Option String × CtrlState :=
  if s.running = false then (none, s)
  else
    if s.managesTerminal ∧ s.originalTermState then
      (none, { s with running := false, originalTermState := false })
    else (none, { s with running := false })

/-- The non-darwin default configuration of `New` in handler.go: macOS
Option decoding off, no `OnPasteChunk` callback, default chunk size. -/
def cfg0 : HandlerCfg :=
  { decodeMacOSOption := false, hasOnPasteChunk := false, pasteChunkSize := 1024 }

/-- Feed a byte sequence from the initial state, then let the escape
ambiguity timer fire (the `processLoop` select in handler.go when no
further input arrives). -/
def feedThenTimeout (cfg : HandlerCfg) (bs : List Nat) : HState × List Ev :=
  let a := processBytes cfg initState bs
  let t := timeoutFire cfg a.1
  (t.1, a.2 ++ t.2)

/-- C1: the claim says the lead byte 0xE0 followed by an ASCII byte
yields the degenerate lead-byte key and then the ASCII key.  The code
instead emits only the ASCII key — the `b < 128` check in `processByte`
precedes the `utf8Remaining > 0` check, so the pending lead byte stays
buffered — and two later continuation bytes then complete a merged,
garbled three-byte key, never a degenerate `0xE0` key. -/
theorem C1_lead_then_ascii_actual_behavior :
    processBytes cfg0 initState [0xE0, 0x61] =
      ({ initState with utf8Buffer := [0xE0], utf8Remaining := 2 }, [Ev.key [0x61]]) ∧
    processBytes cfg0 initState [0xE0, 0x61, 0x80, 0x80] =
      (initState, [Ev.key [0x61], Ev.key [0xE0, 0x80, 0x80]]) := by
  constructor <;> decide

/-- C2 (counterexample): after the reachable input 0xE0 ESC, both
`inEscape` and the UTF-8 continuation (`utf8Remaining > 0`) are active
at once, refuting "at most one of the three flags is active". -/
theorem C2_two_flags_active_counterexample :
    (processBytes cfg0 initState [0xE0, 0x1B]).1.inEscape = true ∧
    0 < (processBytes cfg0 initState [0xE0, 0x1B]).1.utf8Remaining ∧
    (processBytes cfg0 initState [0xE0, 0x1B]).1.inPaste = false := by
  refine ⟨by decide, by decide, by decide⟩

/-- C4 (counterexample): `Stop` on a handler that is not running returns
nil (no error) with the state unchanged, refuting "returns a usage
error" for that half of the claim. -/
theorem C4_stop_when_stopped_returns_nil :
    stopH { running := false, managesTerminal := true, originalTermState := false } =
      (none, { running := false, managesTerminal := true, originalTermState := false }) := by
  decide

/-- C4 (amended): `Start` on a running handler returns the usage error
"handler already running" and leaves the state unchanged; `Stop` on a
non-running handler returns nil and leaves the state unchanged; neither
panics. -/
theorem C4_start_stop_usage :
    (∀ s : CtrlState, s.running = true → startH s = (some "handler already running", s)) ∧
    (∀ s : CtrlState, s.running = false → stopH s = (none, s)) := by
  constructor <;> intro s h <;> simp [startH, stopH, h]

/-- Witness for C4_start_stop_usage at concrete states. -/
theorem C4_start_stop_usage_witness :
    startH { running := true, managesTerminal := false, originalTermState := true } =
      (some "handler already running",
       { running := true, managesTerminal := false, originalTermState := true }) ∧
    stopH { running := false, managesTerminal := false, originalTermState := false } =
      (none, { running := false, managesTerminal := false, originalTermState := false }) :=
  ⟨C4_start_stop_usage.1 _ rfl, C4_start_stop_usage.2 _ rfl⟩

/-- C7: `ESC [ 1 ; 6 C` (modifier 6 = Shift+Control) yields exactly the
single key event `S-C-Right` and the decoder returns to Normal mode. -/
theorem C7_csi_shift_ctrl_right :
    processBytes cfg0 initState (kb "\x1b[1;6C") = (initState, [Ev.key (kb "S-C-Right")]) := by
  decide

/-- C8: a lone ESC byte followed by the ambiguity-timer expiry yields
exactly one `Escape` key event and the decoder returns to Normal mode. -/
theorem C8_lone_escape_timeout :
    feedThenTimeout cfg0 [0x1B] = (initState, [Ev.key (kb "Escape")]) := by
  decide

/-- C9: the claim says `ESC [ < 0 ; 5 ; 1 0 M` yields `Mouse@5,10` then
`MouseLeftPress`.  The position key and the ordering are as claimed, but
the action key is actually `MouseMiddlePress`: `parseMouseSGR` parses
the button code through `parseModifierParam`, which clamps the value 0
to 1, so SGR button code 0 (left) decodes as button 1 (middle). -/
theorem C9_sgr_left_press_actual_behavior :
    processBytes cfg0 initState (kb "\x1b[<0;5;10M") =
      (initState, [Ev.key (kb "Mouse@5,10"), Ev.key (kb "MouseMiddlePress")]) := by
  decide

theorem handleLineAssembly_flags (s : HState) (k : List Nat) :
    (handleLineAssembly s k).1.inEscape = s.inEscape ∧
    (handleLineAssembly s k).1.inPaste = s.inPaste := by
  simp only [handleLineAssembly]
  split_ifs <;> simp

theorem emitKey_flags (cfg : HandlerCfg) (s : HState) (k : List Nat) :
    (emitKey cfg s k).1.inEscape = s.inEscape ∧
    (emitKey cfg s k).1.inPaste = s.inPaste := by
  simp only [emitKey]
  split_ifs <;> simp [handleLineAssembly_flags]

theorem emitKeys_flags (cfg : HandlerCfg) (s : HState) (ks : List (List Nat)) :
    (emitKeys cfg s ks).1.inEscape = s.inEscape ∧
    (emitKeys cfg s ks).1.inPaste = s.inPaste := by
  induction ks generalizing s with
  | nil => simp [emitKeys]
  | cons k rest ih =>
    simp only [emitKeys]
    have h1 := emitKey_flags cfg s k
    have h2 := ih (emitKey cfg s k).1
    exact ⟨h2.1.trans h1.1, h2.2.trans h1.2⟩

theorem pasteLineLoop_flags_bounded :
    ∀ (n : Nat) (s : HState) (content : List Nat), content.length ≤ n →
    (pasteLineLoop s content).1.inEscape = s.inEscape ∧
    (pasteLineLoop s content).1.inPaste = s.inPaste := by
  intro n
  induction n with
  | zero =>
    intro s content hc
    have hnil : content = [] := List.eq_nil_of_length_eq_zero (by omega)
    subst hnil
    simp [pasteLineLoop]
  | succ n ih =>
    intro s content hc
    by_cases h : content = []
    · subst h; simp [pasteLineLoop]
    · have hpos := List.length_pos.mpr h
      have hone := one_le_utf8DecodeRune_snd content h
      have hb1 : (content.drop 1).length ≤ n := by
        simp only [List.length_drop]; omega
      have hbr : (content.drop (utf8DecodeRune content).2).length ≤ n := by
        simp only [List.length_drop]; omega
      rw [pasteLineLoop]
      simp only [dif_neg h]
      split
      · exact ih s _ hb1
      · split
        · exact ⟨rfl, rfl⟩
        · split
          · exact ih _ _ hbr
          · exact ih s _ hbr

theorem pasteLineLoop_flags (s : HState) (content : List Nat) :
    (pasteLineLoop s content).1.inEscape = s.inEscape ∧
    (pasteLineLoop s content).1.inPaste = s.inPaste :=
  pasteLineLoop_flags_bounded content.length s content le_rfl

theorem emitPasteKeys_flags_bounded (cfg : HandlerCfg) :
    ∀ (n : Nat) (s : HState) (content : List Nat), content.length ≤ n →
    (emitPasteKeys cfg s content).1.inEscape = s.inEscape ∧
    (emitPasteKeys cfg s content).1.inPaste = s.inPaste := by
  intro n
  induction n with
  | zero =>
    intro s content hc
    have hnil : content = [] := List.eq_nil_of_length_eq_zero (by omega)
    subst hnil
    simp [emitPasteKeys]
  | succ n ih =>
    intro s content hc
    by_cases h : content = []
    · subst h; simp [emitPasteKeys]
    · have hpos := List.length_pos.mpr h
      have hone := one_le_utf8DecodeRune_snd content h
      have hb1 : (content.drop 1).length ≤ n := by
        simp only [List.length_drop]; omega
      have hbr : (content.drop (utf8DecodeRune content).2).length ≤ n := by
        simp only [List.length_drop]; omega
      rw [emitPasteKeys]
      simp only [dif_neg h]
      split
      · exact ih s _ hb1
      · split
        · rename_i k hk
          have h1 := emitKey_flags cfg s k
          have h2 := ih (emitKey cfg s k).1 (content.drop (utf8DecodeRune content).2) hbr
          exact ⟨h2.1.trans h1.1, h2.2.trans h1.2⟩
        · exact ih s _ hbr

theorem emitPasteKeys_flags (cfg : HandlerCfg) (s : HState) (content : List Nat) :
    (emitPasteKeys cfg s content).1.inEscape = s.inEscape ∧
    (emitPasteKeys cfg s content).1.inPaste = s.inPaste :=
  emitPasteKeys_flags_bounded cfg content.length s content le_rfl

theorem emitPaste_flags (cfg : HandlerCfg) (s : HState) (content : List Nat) :
    (emitPaste cfg s content).1.inEscape = s.inEscape ∧
    (emitPaste cfg s content).1.inPaste = s.inPaste := by
  simp only [emitPaste, handlePasteLineAssembly]
  split_ifs <;> simp [pasteLineLoop_flags, emitPasteKeys_flags]

theorem pasteStep_esc (cfg : HandlerCfg) (s : HState) (b : Nat) :
    (pasteStep cfg s b).1.inEscape = s.inEscape := by
  simp only [pasteStep]
  split_ifs <;> simp [emitPaste_flags]

theorem escapeStep_excl (cfg : HandlerCfg) (s : HState) (b : Nat) (hp : s.inPaste = false) :
    (escapeStep cfg s b).1.inEscape = false ∨ (escapeStep cfg s b).1.inPaste = false := by
  simp only [escapeStep]
  repeat' split
  all_goals simp [hp, emitEscapeBuffer]

theorem normalStep_paste (cfg : HandlerCfg) (s : HState) (b : Nat) :
    (normalStep cfg s b).1.inPaste = s.inPaste := by
  simp only [normalStep, classifyLead]
  repeat' split
  all_goals simp [emitKey_flags, emitKeys_flags]

theorem timeoutFire_excl (cfg : HandlerCfg) (s : HState)
    (h : s.inEscape = false ∨ s.inPaste = false) :
    (timeoutFire cfg s).1.inEscape = false ∨ (timeoutFire cfg s).1.inPaste = false := by
  simp only [timeoutFire]
  repeat' split
  all_goals simp [emitKey_flags, emitEscapeBuffer, h]

theorem processByte_excl (cfg : HandlerCfg) (s : HState) (b : Nat)
    (h : s.inEscape = false ∨ s.inPaste = false) :
    (processByte cfg s b).1.inEscape = false ∨ (processByte cfg s b).1.inPaste = false := by
  simp only [processByte]
  split_ifs with hp he
  · left
    rw [pasteStep_esc]
    rcases h with h | h
    · exact h
    · simp [hp] at h
  · exact escapeStep_excl cfg s b (by simpa using hp)
  · right
    rw [normalStep_paste]
    simpa using hp

/-- Decoder states reachable from the initial state through byte
processing, ambiguity-timer expiry and line-mode switching. -/
inductive Reach (cfg : HandlerCfg) : HState → Prop where
  | start : Reach cfg initState
  | byte {s : HState} (b : Nat) : Reach cfg s → Reach cfg (processByte cfg s b).1
  | timer {s : HState} : Reach cfg s → Reach cfg (timeoutFire cfg s).1
  | mode {s : HState} (en : Bool) : Reach cfg s → Reach cfg (setLineMode s en)

/-- C2 (amended): in every reachable decoder state at most one of
{inEscape, inPaste} is active, and Normal mode (no flags, empty
buffers, no pending continuation) is the initial state.  The original
claim's third flag does not belong in the invariant: utf8Remaining > 0
can coexist with inEscape (see the counterexample). -/
theorem C2_escape_paste_exclusive :
    (∀ (cfg : HandlerCfg) (s : HState), Reach cfg s →
       s.inEscape = false ∨ s.inPaste = false) ∧
    initState.inEscape = false ∧ initState.inPaste = false ∧
    initState.utf8Remaining = 0 ∧ initState.escBuffer = [] ∧
    initState.utf8Buffer = [] ∧ initState.pasteBuffer = [] ∧
    initState.inLineReadMode = false := by
  refine ⟨?_, rfl, rfl, rfl, rfl, rfl, rfl, rfl⟩
  intro cfg s h
  induction h with
  | start => left; rfl
  | byte b hr ih => exact processByte_excl cfg _ b ih
  | timer hr ih => exact timeoutFire_excl cfg _ ih
  | mode en hr ih =>
    simp only [setLineMode]
    split_ifs <;> simpa using ih

/-- Witness for C2_escape_paste_exclusive at the reachable state after
the bytes 0xE0, ESC (the state of the counterexample: inEscape and a
pending UTF-8 continuation are both active, inPaste is not). -/
theorem C2_escape_paste_exclusive_witness :
    (processByte cfg0 (processByte cfg0 initState 0xE0).1 0x1B).1.inEscape = false ∨
    (processByte cfg0 (processByte cfg0 initState 0xE0).1 0x1B).1.inPaste = false :=
  C2_escape_paste_exclusive.1 cfg0 _ (Reach.byte 0x1B (Reach.byte 0xE0 Reach.start))

/-- `utf8DecodeRune` never reports more bytes than are present. -/
theorem utf8DecodeRune_snd_le (p : List Nat) : (utf8DecodeRune p).2 ≤ p.length := by
  match p with
  | [] => simp [utf8DecodeRune]
  | b0 :: rest =>
    simp only [utf8DecodeRune]
    repeat' split
    all_goals simp_all [List.length_cons]

/-- The invariant of the line assembler: the recorded per-character byte
lengths sum to the byte length of the current line. -/
def lineInv (s : HState) : Prop :=
  s.charByteLengths.sum = s.currentLine.length

theorem handleLineAssembly_lineInv (s : HState) (key : List Nat) (h : lineInv s) :
    lineInv (handleLineAssembly s key).1 := by
  unfold lineInv at h ⊢
  simp only [handleLineAssembly]
  split_ifs with h1 h2 h3 h4 h5 h6 h7
  · exact h
  · simp
  · rcases (List.eq_nil_or_concat s.charByteLengths) with hL | ⟨L, a, hL⟩
    · simp [hL] at h4
    · rw [List.concat_eq_append] at hL
      have hlen : (L ++ [a]).length - 1 = L.length := by simp
      have hgl : (L ++ [a]).getLastD 0 = a := List.getLastD_concat _ _ _
      simp only [hL, hgl, hlen, List.take_left, List.sum_append, List.sum_cons,
        List.sum_nil] at h ⊢
      simp [List.length_take]
      omega
  · exact h
  · simp
  · simp
  · simp [List.sum_append, h]
  · exact h
  · exact h

theorem pasteLineLoop_lineInv_bounded :
    ∀ (n : Nat) (s : HState) (content : List Nat), content.length ≤ n → lineInv s →
    lineInv (pasteLineLoop s content).1 := by
  intro n
  induction n with
  | zero =>
    intro s content hc h
    have hnil : content = [] := List.eq_nil_of_length_eq_zero (by omega)
    subst hnil
    simpa [pasteLineLoop] using h
  | succ n ih =>
    intro s content hc h
    by_cases hn : content = []
    · subst hn; simpa [pasteLineLoop] using h
    · have hpos := List.length_pos.mpr hn
      have hone := one_le_utf8DecodeRune_snd content hn
      have hsz := utf8DecodeRune_snd_le content
      have hb1 : (content.drop 1).length ≤ n := by
        simp only [List.length_drop]; omega
      have hbr : (content.drop (utf8DecodeRune content).2).length ≤ n := by
        simp only [List.length_drop]; omega
      rw [pasteLineLoop]
      simp only [dif_neg hn]
      split
      · exact ih s _ hb1 h
      · split
        · simp [lineInv]
        · split
          · refine ih _ _ hbr ?_
            unfold lineInv at h ⊢
            simp only [List.sum_append, List.sum_cons, List.sum_nil, List.length_append,
              List.length_take]
            omega
          · exact ih s _ hbr h

theorem pasteLineLoop_lineInv (s : HState) (content : List Nat) (h : lineInv s) :
    lineInv (pasteLineLoop s content).1 :=
  pasteLineLoop_lineInv_bounded content.length s content le_rfl h

/-- C10: every line-assembly operation — appending a printable key,
Backspace, kill-line ^U, Enter, interrupt ^C, entering line mode, and
splicing pasted content — preserves the invariant that the entries of
`charByteLengths` sum to the byte length of `currentLine`; under that
invariant Backspace removes exactly the recorded byte count of the last
appended character and drops exactly its length entry. -/
theorem C10_line_buffer_invariant :
    lineInv initState ∧
    (∀ (s : HState) (key : List Nat), lineInv s → lineInv (handleLineAssembly s key).1) ∧
    (∀ (s : HState) (content : List Nat), lineInv s →
       lineInv (handlePasteLineAssembly s content).1) ∧
    (∀ (s : HState) (en : Bool), lineInv s → lineInv (setLineMode s en)) ∧
    (∀ s : HState, lineInv s → s.inLineReadMode = true → 0 < s.charByteLengths.length →
       (handleLineAssembly s (kb "Backspace")).1.currentLine.length +
         s.charByteLengths.getLastD 0 = s.currentLine.length ∧
       (handleLineAssembly s (kb "Backspace")).1.charByteLengths =
         s.charByteLengths.dropLast) := by
  refine ⟨by simp [lineInv, initState], handleLineAssembly_lineInv, ?_, ?_, ?_⟩
  · intro s content h
    unfold handlePasteLineAssembly
    split_ifs
    · exact h
    · exact pasteLineLoop_lineInv s content h
  · intro s en h
    unfold lineInv at h ⊢
    simp only [setLineMode]
    split_ifs <;> simp [h]
  · intro s h hline hne
    unfold lineInv at h
    have hBSne : kb "Backspace" ≠ kb "Enter" := by decide
    simp only [handleLineAssembly]
    rw [if_neg (by simp [hline]), if_neg hBSne]
    simp only [if_true]
    rw [if_pos hne]
    rcases (List.eq_nil_or_concat s.charByteLengths) with hL | ⟨L, a, hL⟩
    · rw [hL] at hne; simp at hne
    · rw [List.concat_eq_append] at hL
      have hlen : (L ++ [a]).length - 1 = L.length := by simp
      have hgl : (L ++ [a]).getLastD 0 = a := List.getLastD_concat _ _ _
      simp only [hL, hgl, hlen, List.take_left, List.sum_append, List.sum_cons,
        List.sum_nil, List.dropLast_concat] at h ⊢
      constructor
      · simp [List.length_take]
        omega
      · trivial

/-- Witness for C10_line_buffer_invariant: a line holding "h" and a
two-byte "é"; appending "x" preserves the invariant and Backspace
removes exactly the two bytes of the "é". -/
theorem C10_line_buffer_invariant_witness :
    lineInv (handleLineAssembly { initState with inLineReadMode := true, currentLine := [104, 195, 169], charByteLengths := [1, 2] } [120]).1 ∧
    (handleLineAssembly { initState with inLineReadMode := true, currentLine := [104, 195, 169], charByteLengths := [1, 2] } (kb "Backspace")).1.charByteLengths = [1] := by
  have h1 := C10_line_buffer_invariant.2.1
    { initState with inLineReadMode := true, currentLine := [104, 195, 169], charByteLengths := [1, 2] }
    [120] (by unfold lineInv; decide)
  have h2 := (C10_line_buffer_invariant.2.2.2.2
    { initState with inLineReadMode := true, currentLine := [104, 195, 169], charByteLengths := [1, 2] }
    (by unfold lineInv; decide) rfl (by decide)).2
  exact ⟨h1, by rw [h2]; decide⟩

/-- C6 (counterexample): with all four modifier bits set (CSI modifier
parameter 16), `modifierPrefix` renders `S-M-C-s-` — the Shift mark
first and the Super mark last — whereas the claimed order (Super, then
Alt, then Control, then Shift) requires the name to start with the
Super mark `s-`. -/
theorem C6_render_order_counterexample :
    modifierPrefix 16 = kb "S-M-C-s-" ∧
    (kb "S-M-C-s-").take 2 = kb "S-" ∧ kb "S-" ≠ kb "s-" := by
  refine ⟨by decide, by decide, by decide⟩

/-- C6 (amended): for every 4-bit xterm modifier code, the CSI path
(`modifierPrefix`) renders Shift, Alt, Control, Super in that order as
`S-`, `M-`, `C-`, `s-` prefixes, and the Kitty letter path
(`formatLetterKey`) renders Super, then Alt, then Shift-or-case, with
Control as `^` innermost against the uppercased letter (`S-` before the
`^` when Shift is also held; Shift alone uppercases the letter). -/
theorem C6_render_order :
    (∀ mo : Nat, mo < 17 → modifierPrefix mo =
      (if 2 ≤ mo ∧ (mo - 1) % 2 = 1 then kb "S-" else []) ++
      (if 2 ≤ mo ∧ (mo - 1) / 2 % 2 = 1 then kb "M-" else []) ++
      (if 2 ≤ mo ∧ (mo - 1) / 4 % 2 = 1 then kb "C-" else []) ++
      (if 2 ≤ mo ∧ (mo - 1) / 8 % 2 = 1 then kb "s-" else [])) ∧
    (∀ mo : Nat, mo < 17 → ∀ l : Nat, l < 123 → 97 ≤ l → formatLetterKey l mo =
      (if (mo - 1) / 8 % 2 = 1 then kb "s-" else []) ++
      (if (mo - 1) / 2 % 2 = 1 then kb "M-" else []) ++
      (if (mo - 1) / 4 % 2 = 1 then
        (if (mo - 1) % 2 = 1 then kb "S-" else []) ++ kb "^" ++ [l - 32]
       else if (mo - 1) % 2 = 1 then [l - 32] else [l])) := by
  constructor <;> decide

/-- Witness for C6_render_order: all four modifiers on a Kitty letter
key, and Shift+Alt+Control on a CSI key. -/
theorem C6_render_order_witness :
    formatLetterKey 97 16 = kb "s-M-S-^A" ∧ modifierPrefix 8 = kb "S-M-C-" :=
  ⟨(C6_render_order.2 16 (by decide) 97 (by decide) (by decide)).trans (by decide),
   (C6_render_order.1 8 (by decide)).trans (by decide)⟩

theorem emitKey_plain (cfg : HandlerCfg) (s : HState) (k : List Nat)
    (hflag : cfg.decodeMacOSOption = false) (hs : s.inLineReadMode = false) :
    emitKey cfg s k = (s, [Ev.key k]) := by
  simp [emitKey, hflag, hs]

theorem timeoutFire_id (cfg : HandlerCfg) (s : HState) (he : s.inEscape = false) :
    timeoutFire cfg s = (s, []) := by
  simp [timeoutFire, he]

theorem processByte_ascii (cfg : HandlerCfg) (s : HState) (b : Nat)
    (hflag : cfg.decodeMacOSOption = false) (hs : s.inLineReadMode = false)
    (hp : s.inPaste = false) (he : s.inEscape = false)
    (hb1 : 32 ≤ b) (hb2 : b < 127) :
    processByte cfg s b = (s, [Ev.key [b]]) := by
  simp only [processByte, hp, he, Bool.false_eq_true, if_false, normalStep]
  rw [if_neg (by omega : ¬b = 27), if_neg (by omega : ¬(b < 32 ∨ b = 127)),
    if_pos (by omega : b < 128)]
  exact emitKey_plain cfg s [b] hflag hs

theorem processByte_lead (cfg : HandlerCfg) (s : HState) (b : Nat)
    (hp : s.inPaste = false) (he : s.inEscape = false) (hr : s.utf8Remaining = 0)
    (hb1 : 0xC0 ≤ b) (hb2 : b ≤ 0xF7) :
    processByte cfg s b =
      ({ s with utf8Buffer := [b], utf8Remaining := if b ≤ 0xDF then 1 else if b ≤ 0xEF then 2 else 3 }, []) := by
  simp only [processByte, hp, he, Bool.false_eq_true, if_false, normalStep]
  rw [if_neg (by omega : ¬b = 27), if_neg (by omega : ¬(b < 32 ∨ b = 127)),
    if_neg (by omega : ¬b < 128), hr]
  rw [if_neg (by omega : ¬0 < 0)]
  simp only [classifyLead]
  by_cases hd : b ≤ 0xDF
  · rw [if_pos (by omega : 0xC0 ≤ b ∧ b ≤ 0xDF), if_pos hd]
    simp [he, hp]
  · by_cases hf : b ≤ 0xEF
    · rw [if_neg (by omega : ¬(0xC0 ≤ b ∧ b ≤ 0xDF)),
        if_pos (by omega : 0xE0 ≤ b ∧ b ≤ 0xEF), if_neg hd, if_pos hf]
      simp [he, hp]
    · rw [if_neg (by omega : ¬(0xC0 ≤ b ∧ b ≤ 0xDF)),
        if_neg (by omega : ¬(0xE0 ≤ b ∧ b ≤ 0xEF)),
        if_pos (by omega : 0xF0 ≤ b ∧ b ≤ 0xF7), if_neg hd, if_neg hf]
      simp [he, hp]

theorem processByte_cont_last (cfg : HandlerCfg) (s : HState) (b : Nat)
    (hflag : cfg.decodeMacOSOption = false) (hs : s.inLineReadMode = false)
    (hp : s.inPaste = false) (he : s.inEscape = false) (hr : s.utf8Remaining = 1)
    (hb : 0x80 ≤ b ∧ b ≤ 0xBF) :
    processByte cfg s b =
      ({ s with utf8Buffer := [], utf8Remaining := 0 }, [Ev.key (s.utf8Buffer ++ [b])]) := by
  simp only [processByte, hp, he, Bool.false_eq_true, if_false, normalStep]
  rw [if_neg (by omega : ¬b = 27), if_neg (by omega : ¬(b < 32 ∨ b = 127)),
    if_neg (by omega : ¬b < 128), hr]
  rw [if_pos (by omega : 0 < 1), if_pos hb]
  simp only [Nat.sub_self, if_true]
  rw [emitKey_plain cfg _ _ hflag (by simpa using hs)]

theorem processByte_cont_more (cfg : HandlerCfg) (s : HState) (b : Nat)
    (hp : s.inPaste = false) (he : s.inEscape = false) (hr : 2 ≤ s.utf8Remaining)
    (hb : 0x80 ≤ b ∧ b ≤ 0xBF) :
    processByte cfg s b =
      ({ s with utf8Buffer := s.utf8Buffer ++ [b], utf8Remaining := s.utf8Remaining - 1 }, []) := by
  simp only [processByte, hp, he, Bool.false_eq_true, if_false, normalStep]
  rw [if_neg (by omega : ¬b = 27), if_neg (by omega : ¬(b < 32 ∨ b = 127)),
    if_neg (by omega : ¬b < 128)]
  rw [if_pos (by omega : 0 < s.utf8Remaining), if_pos hb]
  split_ifs with hc
  · exfalso
    simp at hc
    omega
  · simp [he, hp]

theorem processBytes_nil (cfg : HandlerCfg) (s : HState) :
    processBytes cfg s [] = (s, []) := rfl

theorem processBytes_cons (cfg : HandlerCfg) (s : HState) (b : Nat) (rest : List Nat) :
    processBytes cfg s (b :: rest) =
      ((processBytes cfg (processByte cfg s b).1 rest).1,
       (processByte cfg s b).2 ++ (processBytes cfg (processByte cfg s b).1 rest).2) := rfl

/-- Feed a byte sequence from the initial state split into two
deliveries at position `i`, with the ambiguity timer allowed to fire in
between (the only asynchronous event of `processLoop` between two
chunks). -/
def feedSplitTimeout (cfg : HandlerCfg) (i : Nat) (bs : List Nat) : HState × List Ev :=
  ((processBytes cfg (timeoutFire cfg (processBytes cfg initState (bs.take i)).1).1 (bs.drop i)).1,
   (processBytes cfg initState (bs.take i)).2 ++
   (timeoutFire cfg (processBytes cfg initState (bs.take i)).1).2 ++
   (processBytes cfg (timeoutFire cfg (processBytes cfg initState (bs.take i)).1).1 (bs.drop i)).2)

/-- C5 (counterexample): the scalar value U+0001 encodes to the byte
0x01, which the decoder emits as the control key `^A`, not as the
character itself; so the round trip fails below 0x20. -/
theorem C5_control_scalar_counterexample :
    processBytes cfg0 initState (encChar 1) = (initState, [Ev.key (kb "^A")]) ∧
    kb "^A" ≠ encChar 1 := by
  refine ⟨by decide, by decide⟩

/-- C5 (amended): for every Unicode scalar value c with 0x20 ≤ c,
c ≠ 0x7F (DEL), c not a surrogate and c < 0x110000, feeding the UTF-8
encoding of c — whole or split at any byte position across two
deliveries, with the ambiguity timer firing in between — yields exactly
one key event whose bytes are that encoding, with macOS Option decoding
disabled, and the decoder returns to the initial state. -/
theorem C5_utf8_round_trip (cfg : HandlerCfg) (c : Nat)
    (hflag : cfg.decodeMacOSOption = false)
    (h1 : 0x20 ≤ c) (h2 : c ≠ 0x7F) (h3 : c < 0x110000)
    (h4 : ¬(0xD800 ≤ c ∧ c < 0xE000)) (i : Nat) :
    feedSplitTimeout cfg i (encChar c) = (initState, [Ev.key (encChar c)]) := by
  rcases Nat.lt_or_ge c 0x80 with hc | hc
  · -- one byte
    have henc : encChar c = [c] := by
      simp only [encChar, if_pos hc]
    have ea : processByte cfg initState c = (initState, [Ev.key [c]]) :=
      processByte_ascii cfg initState c hflag rfl rfl rfl (by omega) (by omega)
    rw [henc]
    rcases i with _ | i
    · simp [feedSplitTimeout, processBytes_nil, processBytes_cons, ea,
        timeoutFire_id cfg initState rfl]
    · simp [feedSplitTimeout, processBytes_nil, processBytes_cons, ea,
        timeoutFire_id cfg initState rfl]
  · rcases Nat.lt_or_ge c 0x800 with hc2 | hc2
    · -- two bytes
      have henc : encChar c = [0xC0 + c / 64, 0x80 + c % 64] := by
        simp only [encChar, if_neg (by omega : ¬c < 0x80), if_pos hc2]
      have e1 : processByte cfg initState (0xC0 + c / 64) =
          ({ initState with utf8Buffer := [0xC0 + c / 64], utf8Remaining := 1 }, []) := by
        rw [processByte_lead cfg initState _ rfl rfl rfl (by omega) (by omega)]
        rw [if_pos (by omega : 0xC0 + c / 64 ≤ 0xDF)]
      have e2 : processByte cfg { initState with utf8Buffer := [0xC0 + c / 64], utf8Remaining := 1 } (0x80 + c % 64) =
          (initState, [Ev.key [0xC0 + c / 64, 0x80 + c % 64]]) := by
        rw [processByte_cont_last cfg _ _ hflag rfl rfl rfl rfl ⟨by omega, by omega⟩]
        rfl
      rw [henc]
      rcases i with _ | _ | i
      · simp [feedSplitTimeout, processBytes_nil, processBytes_cons, e1, e2,
          timeoutFire_id cfg initState rfl]
      · simp [feedSplitTimeout, processBytes_nil, processBytes_cons, e1, e2,
          timeoutFire_id cfg initState rfl,
          timeoutFire_id cfg { initState with utf8Buffer := [0xC0 + c / 64], utf8Remaining := 1 } rfl]
      · simp [feedSplitTimeout, processBytes_nil, processBytes_cons, e1, e2,
          timeoutFire_id cfg initState rfl, List.take_nil, List.drop_nil]
    · rcases Nat.lt_or_ge c 0x10000 with hc3 | hc3
      · -- three bytes
        have henc : encChar c = [0xE0 + c / 4096, 0x80 + c / 64 % 64, 0x80 + c % 64] := by
          simp only [encChar, if_neg (by omega : ¬c < 0x80), if_neg (by omega : ¬c < 0x800),
            if_pos hc3]
        have e1 : processByte cfg initState (0xE0 + c / 4096) =
            ({ initState with utf8Buffer := [0xE0 + c / 4096], utf8Remaining := 2 }, []) := by
          rw [processByte_lead cfg initState _ rfl rfl rfl (by omega) (by omega)]
          rw [if_neg (by omega : ¬0xE0 + c / 4096 ≤ 0xDF), if_pos (by omega : 0xE0 + c / 4096 ≤ 0xEF)]
        have e2 : processByte cfg { initState with utf8Buffer := [0xE0 + c / 4096], utf8Remaining := 2 } (0x80 + c / 64 % 64) =
            ({ initState with utf8Buffer := [0xE0 + c / 4096, 0x80 + c / 64 % 64], utf8Remaining := 1 }, []) := by
          rw [processByte_cont_more cfg _ _ rfl rfl (by simp) ⟨by omega, by omega⟩]
          rfl
        have e3 : processByte cfg { initState with utf8Buffer := [0xE0 + c / 4096, 0x80 + c / 64 % 64], utf8Remaining := 1 } (0x80 + c % 64) =
            (initState, [Ev.key [0xE0 + c / 4096, 0x80 + c / 64 % 64, 0x80 + c % 64]]) := by
          rw [processByte_cont_last cfg _ _ hflag rfl rfl rfl rfl ⟨by omega, by omega⟩]
          rfl
        rw [henc]
        rcases i with _ | _ | _ | i
        · simp [feedSplitTimeout, processBytes_nil, processBytes_cons, e1, e2, e3,
            timeoutFire_id cfg initState rfl]
        · simp [feedSplitTimeout, processBytes_nil, processBytes_cons, e1, e2, e3,
            timeoutFire_id cfg initState rfl,
            timeoutFire_id cfg { initState with utf8Buffer := [0xE0 + c / 4096], utf8Remaining := 2 } rfl]
        · simp [feedSplitTimeout, processBytes_nil, processBytes_cons, e1, e2, e3,
            timeoutFire_id cfg initState rfl,
            timeoutFire_id cfg { initState with utf8Buffer := [0xE0 + c / 4096, 0x80 + c / 64 % 64], utf8Remaining := 1 } rfl]
        · simp [feedSplitTimeout, processBytes_nil, processBytes_cons, e1, e2, e3,
            timeoutFire_id cfg initState rfl, List.take_nil, List.drop_nil]
      · -- four bytes
        have henc : encChar c = [0xF0 + c / 262144, 0x80 + c / 4096 % 64, 0x80 + c / 64 % 64, 0x80 + c % 64] := by
          simp only [encChar, if_neg (by omega : ¬c < 0x80), if_neg (by omega : ¬c < 0x800),
            if_neg (by omega : ¬c < 0x10000)]
        have e1 : processByte cfg initState (0xF0 + c / 262144) =
            ({ initState with utf8Buffer := [0xF0 + c / 262144], utf8Remaining := 3 }, []) := by
          rw [processByte_lead cfg initState _ rfl rfl rfl (by omega) (by omega)]
          rw [if_neg (by omega : ¬0xF0 + c / 262144 ≤ 0xDF), if_neg (by omega : ¬0xF0 + c / 262144 ≤ 0xEF)]
        have e2 : processByte cfg { initState with utf8Buffer := [0xF0 + c / 262144], utf8Remaining := 3 } (0x80 + c / 4096 % 64) =
            ({ initState with utf8Buffer := [0xF0 + c / 262144, 0x80 + c / 4096 % 64], utf8Remaining := 2 }, []) := by
          rw [processByte_cont_more cfg _ _ rfl rfl (by simp) ⟨by omega, by omega⟩]
          rfl
        have e3 : processByte cfg { initState with utf8Buffer := [0xF0 + c / 262144, 0x80 + c / 4096 % 64], utf8Remaining := 2 } (0x80 + c / 64 % 64) =
            ({ initState with utf8Buffer := [0xF0 + c / 262144, 0x80 + c / 4096 % 64, 0x80 + c / 64 % 64], utf8Remaining := 1 }, []) := by
          rw [processByte_cont_more cfg _ _ rfl rfl (by simp) ⟨by omega, by omega⟩]
          rfl
        have e4 : processByte cfg { initState with utf8Buffer := [0xF0 + c / 262144, 0x80 + c / 4096 % 64, 0x80 + c / 64 % 64], utf8Remaining := 1 } (0x80 + c % 64) =
            (initState, [Ev.key [0xF0 + c / 262144, 0x80 + c / 4096 % 64, 0x80 + c / 64 % 64, 0x80 + c % 64]]) := by
          rw [processByte_cont_last cfg _ _ hflag rfl rfl rfl rfl ⟨by omega, by omega⟩]
          rfl
        rw [henc]
        rcases i with _ | _ | _ | _ | i
        · simp [feedSplitTimeout, processBytes_nil, processBytes_cons, e1, e2, e3, e4,
            timeoutFire_id cfg initState rfl]
        · simp [feedSplitTimeout, processBytes_nil, processBytes_cons, e1, e2, e3, e4,
            timeoutFire_id cfg initState rfl,
            timeoutFire_id cfg { initState with utf8Buffer := [0xF0 + c / 262144], utf8Remaining := 3 } rfl]
        · simp [feedSplitTimeout, processBytes_nil, processBytes_cons, e1, e2, e3, e4,
            timeoutFire_id cfg initState rfl,
            timeoutFire_id cfg { initState with utf8Buffer := [0xF0 + c / 262144, 0x80 + c / 4096 % 64], utf8Remaining := 2 } rfl]
        · simp [feedSplitTimeout, processBytes_nil, processBytes_cons, e1, e2, e3, e4,
            timeoutFire_id cfg initState rfl,
            timeoutFire_id cfg { initState with utf8Buffer := [0xF0 + c / 262144, 0x80 + c / 4096 % 64, 0x80 + c / 64 % 64], utf8Remaining := 1 } rfl]
        · simp [feedSplitTimeout, processBytes_nil, processBytes_cons, e1, e2, e3, e4,
            timeoutFire_id cfg initState rfl, List.take_nil, List.drop_nil]

/-- Witness for C5_utf8_round_trip: é (U+00E9), split after its first
byte. -/
theorem C5_utf8_round_trip_witness :
    feedSplitTimeout cfg0 1 (encChar 0xE9) = (initState, [Ev.key (encChar 0xE9)]) :=
  C5_utf8_round_trip cfg0 0xE9 rfl (by decide) (by decide) (by decide) (by decide) 1

/-- The decoder state inside a bracketed paste started from the initial
state: `pasteBuffer` holds the not-yet-chunked tail, `fullPasteContent`
everything received since the start marker. -/
def pstate (pb fc : List Nat) : HState :=
  { initState with inPaste := true, pasteBuffer := pb, fullPasteContent := fc }

theorem processBytes_append (cfg : HandlerCfg) (s : HState) (xs ys : List Nat) :
    processBytes cfg s (xs ++ ys) =
      ((processBytes cfg (processBytes cfg s xs).1 ys).1,
       (processBytes cfg s xs).2 ++ (processBytes cfg (processBytes cfg s xs).1 ys).2) := by
  induction xs generalizing s with
  | nil => simp [processBytes_nil]
  | cons x xs ih => simp [processBytes_cons, ih]

theorem processByte_inPaste (cfg : HandlerCfg) (s : HState) (b : Nat)
    (hp : s.inPaste = true) : processByte cfg s b = pasteStep cfg s b := by
  simp [processByte, hp]

theorem processByte_inEscape (cfg : HandlerCfg) (s : HState) (b : Nat)
    (hp : s.inPaste = false) (he : s.inEscape = true) :
    processByte cfg s b = escapeStep cfg s b := by
  simp [processByte, hp, he]

theorem processByte_escStart (cfg : HandlerCfg) (s : HState)
    (hp : s.inPaste = false) (he : s.inEscape = false) :
    processByte cfg s 27 = ({ s with inEscape := true, escBuffer := [27] }, []) := by
  simp [processByte, hp, he, normalStep]

theorem escapeStep_wait (cfg : HandlerCfg) (s : HState) (b : Nat)
    (h1 : s.escBuffer ++ [b] ≠ kb "\x1b[200~")
    (h2 : lookupTable escBindings (s.escBuffer ++ [b]) = none)
    (h3 : couldBeEscapePrefix (s.escBuffer ++ [b]) = true) :
    escapeStep cfg s b = ({ s with escBuffer := s.escBuffer ++ [b] }, []) := by
  simp [escapeStep, h1, h2, h3]

theorem escapeStep_pasteStart (cfg : HandlerCfg) (s : HState) (b : Nat)
    (h : s.escBuffer ++ [b] = kb "\x1b[200~") :
    escapeStep cfg s b =
      ({ s with inEscape := false, escBuffer := [], inPaste := true, pasteBuffer := [], fullPasteContent := [] }, []) := by
  simp [escapeStep, h]

/-- Feeding the bracketed-paste start marker from the initial state
enters paste mode with empty buffers and emits nothing. -/
theorem startMarker_run (cfg : HandlerCfg) :
    processBytes cfg initState (kb "\x1b[200~") = (pstate [] [], []) := by
  have hm : kb "\x1b[200~" = [27, 91, 50, 48, 48, 126] := by decide
  have t0 := processByte_escStart cfg initState rfl rfl
  have t1 : processByte cfg { initState with inEscape := true, escBuffer := [27] } 91 =
      ({ initState with inEscape := true, escBuffer := [27, 91] }, []) := by
    rw [processByte_inEscape cfg _ _ rfl rfl,
      escapeStep_wait cfg _ _ (by decide) (by decide) (by decide)]
    rfl
  have t2 : processByte cfg { initState with inEscape := true, escBuffer := [27, 91] } 50 =
      ({ initState with inEscape := true, escBuffer := [27, 91, 50] }, []) := by
    rw [processByte_inEscape cfg _ _ rfl rfl,
      escapeStep_wait cfg _ _ (by decide) (by decide) (by decide)]
    rfl
  have t3 : processByte cfg { initState with inEscape := true, escBuffer := [27, 91, 50] } 48 =
      ({ initState with inEscape := true, escBuffer := [27, 91, 50, 48] }, []) := by
    rw [processByte_inEscape cfg _ _ rfl rfl,
      escapeStep_wait cfg _ _ (by decide) (by decide) (by decide)]
    rfl
  have t4 : processByte cfg { initState with inEscape := true, escBuffer := [27, 91, 50, 48] } 48 =
      ({ initState with inEscape := true, escBuffer := [27, 91, 50, 48, 48] }, []) := by
    rw [processByte_inEscape cfg _ _ rfl rfl,
      escapeStep_wait cfg _ _ (by decide) (by decide) (by decide)]
    rfl
  have t5 : processByte cfg { initState with inEscape := true, escBuffer := [27, 91, 50, 48, 48] } 126 =
      (pstate [] [], []) := by
    rw [processByte_inEscape cfg _ _ rfl rfl,
      escapeStep_pasteStart cfg _ _ (by decide)]
    rfl
  rw [hm]
  simp [processBytes_cons, processBytes_nil, t0, t1, t2, t3, t4, t5]

theorem pasteStep_nofire_chunk (cfg : HandlerCfg) (pb P : List Nat) (b : Nat)
    (hfire : ¬(6 ≤ (pb ++ [b]).length ∧
      (pb ++ [b]).drop ((pb ++ [b]).length - 6) = kb "\x1b[201~"))
    (hcb : cfg.hasOnPasteChunk = true)
    (hchunk : cfg.pasteChunkSize + 7 ≤ (pb ++ [b]).length) :
    pasteStep cfg (pstate pb P) b =
      (pstate ((pb ++ [b]).drop cfg.pasteChunkSize) (P ++ [b]),
       [Ev.chunk ((pb ++ [b]).take cfg.pasteChunkSize) false]) := by
  simp only [pasteStep, pstate, initState]
  rw [if_neg (by simpa using hfire)]
  rw [if_pos (show cfg.hasOnPasteChunk = true ∧ cfg.pasteChunkSize + 7 ≤ (pb ++ [b]).length from ⟨hcb, hchunk⟩)]

theorem pasteStep_nofire_nochunk (cfg : HandlerCfg) (pb P : List Nat) (b : Nat)
    (hfire : ¬(6 ≤ (pb ++ [b]).length ∧
      (pb ++ [b]).drop ((pb ++ [b]).length - 6) = kb "\x1b[201~"))
    (hnochunk : ¬(cfg.hasOnPasteChunk = true ∧ cfg.pasteChunkSize + 7 ≤ (pb ++ [b]).length)) :
    pasteStep cfg (pstate pb P) b = (pstate (pb ++ [b]) (P ++ [b]), []) := by
  simp only [pasteStep, pstate, initState]
  rw [if_neg (by simpa using hfire)]
  rw [if_neg (by simpa using hnochunk)]

theorem pasteStep_fire (cfg : HandlerCfg) (pb P : List Nat) (b : Nat)
    (hfire : 6 ≤ (pb ++ [b]).length ∧
      (pb ++ [b]).drop ((pb ++ [b]).length - 6) = kb "\x1b[201~") :
    pasteStep cfg (pstate pb P) b =
      ((emitPaste cfg initState ((P ++ [b]).take ((P ++ [b]).length - 6))).1,
       (if cfg.hasOnPasteChunk then
          [Ev.chunk ((pb ++ [b]).take ((pb ++ [b]).length - 6)) true] else []) ++
       (emitPaste cfg initState ((P ++ [b]).take ((P ++ [b]).length - 6))).2) := by
  simp only [pasteStep, pstate, initState]
  rw [if_pos (by simpa using hfire)]

theorem emitKey_normal (cfg : HandlerCfg) (s : HState) (k : List Nat)
    (hs : s.inLineReadMode = false) :
    (emitKey cfg s k).1 = s ∧ ∃ k2, (emitKey cfg s k).2 = [Ev.key k2] := by
  simp only [emitKey, hs, Bool.false_eq_true, if_false]
  exact ⟨trivial, _, rfl⟩

theorem emitPasteKeys_normal_bounded (cfg : HandlerCfg) :
    ∀ (n : Nat) (s : HState) (content : List Nat), content.length ≤ n →
      s.inLineReadMode = false →
      (emitPasteKeys cfg s content).1 = s ∧
      (∀ e ∈ (emitPasteKeys cfg s content).2, ∃ k, e = Ev.key k) := by
  intro n
  induction n with
  | zero =>
    intro s content hc hs
    have hnil : content = [] := List.eq_nil_of_length_eq_zero (by omega)
    subst hnil
    simp [emitPasteKeys]
  | succ n ih =>
    intro s content hc hs
    by_cases h : content = []
    · subst h; simp [emitPasteKeys]
    · have hpos := List.length_pos.mpr h
      have hone := one_le_utf8DecodeRune_snd content h
      have hb1 : (content.drop 1).length ≤ n := by
        simp only [List.length_drop]; omega
      have hbr : (content.drop (utf8DecodeRune content).2).length ≤ n := by
        simp only [List.length_drop]; omega
      rw [emitPasteKeys]
      simp only [dif_neg h]
      split
      · exact ih s _ hb1 hs
      · split
        · rename_i k hk
          obtain ⟨hek1, k2, hek2⟩ := emitKey_normal cfg s k hs
          have h2 := ih (emitKey cfg s k).1 (content.drop (utf8DecodeRune content).2) hbr
            (by rw [hek1]; exact hs)
          refine ⟨by rw [h2.1, hek1], ?_⟩
          intro e he
          simp only [List.mem_append, hek2] at he
          rcases he with he | he
          · simp at he; exact ⟨k2, he⟩
          · exact h2.2 e he
        · exact ih s _ hbr hs

theorem pasteEvents_cons_paste (c : List Nat) (rest : List Ev) :
    pasteEvents (Ev.paste c :: rest) = c :: pasteEvents rest := by
  simp [pasteEvents]

theorem chunkEvents_cons_paste (c : List Nat) (rest : List Ev) :
    chunkEvents (Ev.paste c :: rest) = chunkEvents rest := by
  simp [chunkEvents]

theorem emitPaste_normal (cfg : HandlerCfg) (s : HState) (content : List Nat)
    (hs : s.inLineReadMode = false) :
    (emitPaste cfg s content).1 = s ∧
    pasteEvents (emitPaste cfg s content).2 = [content] ∧
    chunkEvents (emitPaste cfg s content).2 = [] := by
  obtain ⟨h1, h2⟩ := emitPasteKeys_normal_bounded cfg content.length s content le_rfl hs
  have hkeys : ∀ (evs : List Ev), (∀ e ∈ evs, ∃ k, e = Ev.key k) →
      pasteEvents evs = [] ∧ chunkEvents evs = [] := by
    intro evs hevs
    induction evs with
    | nil => simp [pasteEvents, chunkEvents]
    | cons e rest ihe =>
      obtain ⟨k, rfl⟩ := hevs e (by simp)
      have := ihe (fun e he => hevs e (by simp [he]))
      simp [pasteEvents, chunkEvents] at this ⊢
      exact this
  simp only [emitPaste, hs, Bool.false_eq_true, if_false]
  obtain ⟨hp, hc⟩ := hkeys _ h2
  refine ⟨h1, ?_, ?_⟩
  · rw [pasteEvents_cons_paste, hp]
  · rw [chunkEvents_cons_paste, hc]

theorem pasteEvents_chunks (cs : List (List Nat)) :
    pasteEvents (cs.map (fun c => Ev.chunk c false)) = [] := by
  induction cs with
  | nil => simp [pasteEvents]
  | cons c rest ih => simpa [pasteEvents] using ih

theorem chunkEvents_chunks (cs : List (List Nat)) :
    chunkEvents (cs.map (fun c => Ev.chunk c false)) = cs := by
  induction cs with
  | nil => simp [chunkEvents]
  | cons c rest ih => simpa [chunkEvents] using ih

theorem pasteEvents_append (a b : List Ev) :
    pasteEvents (a ++ b) = pasteEvents a ++ pasteEvents b := by
  simp [pasteEvents]

theorem chunkEvents_append (a b : List Ev) :
    chunkEvents (a ++ b) = chunkEvents a ++ chunkEvents b := by
  simp [chunkEvents]

theorem suffix_append_right {l₁ l₂ : List Nat} (l₃ : List Nat) (h : l₁ <:+ l₂) :
    l₁ ++ l₃ <:+ l₂ ++ l₃ := by
  obtain ⟨t, rfl⟩ := h
  exact ⟨t, by simp⟩

/-- Running the decoder inside a paste: as long as no prefix of the
input completes the end marker on the buffer tail, the decoder stays in
paste mode, accumulates everything into `fullPasteContent`, and emits
only non-final chunks whose concatenation with the remaining buffer is
exactly the bytes received. -/
theorem pasteRun (cfg : HandlerCfg) :
    ∀ (bs pb P : List Nat),
      pb <:+ P →
      (pb.length < P.length → 7 ≤ pb.length) →
      (∀ k, 1 ≤ k → k ≤ bs.length → ¬ (kb "\x1b[201~") <:+ (P ++ bs.take k)) →
      ∃ (cs : List (List Nat)) (pb2 : List Nat),
        processBytes cfg (pstate pb P) bs =
          (pstate pb2 (P ++ bs), cs.map (fun c => Ev.chunk c false)) ∧
        cs.flatten ++ pb2 = pb ++ bs ∧ pb2 <:+ (P ++ bs) ∧
        (pb2.length < (P ++ bs).length → 7 ≤ pb2.length) := by
  intro bs
  induction bs with
  | nil =>
    intro pb P hsuf hlen hnf
    exact ⟨[], pb, by simp [processBytes_nil], by simp, by simpa using hsuf,
      by simpa using hlen⟩
  | cons b rest ih =>
    intro pb P hsuf hlen hnf
    have hsuf1 : pb ++ [b] <:+ P ++ [b] := suffix_append_right [b] hsuf
    have hfire : ¬(6 ≤ (pb ++ [b]).length ∧
        (pb ++ [b]).drop ((pb ++ [b]).length - 6) = kb "\x1b[201~") := by
      rintro ⟨hle, hdrop⟩
      have hsfx : (kb "\x1b[201~") <:+ (pb ++ [b]) := hdrop ▸ List.drop_suffix _ _
      exact hnf 1 le_rfl (by simp) (by simpa using hsfx.trans hsuf1)
    have hnf2 : ∀ k, 1 ≤ k → k ≤ rest.length →
        ¬ (kb "\x1b[201~") <:+ ((P ++ [b]) ++ rest.take k) := by
      intro k hk1 hk2 hsfx
      refine hnf (k + 1) (by omega) (by simp; omega) ?_
      simpa [List.append_assoc] using hsfx
    rw [processBytes_cons, processByte_inPaste cfg _ b rfl]
    by_cases hch : cfg.hasOnPasteChunk = true ∧ cfg.pasteChunkSize + 7 ≤ (pb ++ [b]).length
    · -- a non-final chunk is flushed
      rw [pasteStep_nofire_chunk cfg pb P b hfire hch.1 hch.2]
      have hs2 : (pb ++ [b]).drop cfg.pasteChunkSize <:+ P ++ [b] :=
        (List.drop_suffix _ _).trans hsuf1
      have hl2 : ((pb ++ [b]).drop cfg.pasteChunkSize).length < (P ++ [b]).length →
          7 ≤ ((pb ++ [b]).drop cfg.pasteChunkSize).length := by
        intro _
        simp only [List.length_drop]
        omega
      obtain ⟨cs, pb2, hrun, hflat, hsfx2, hlen2⟩ := ih _ _ hs2 hl2 hnf2
      refine ⟨(pb ++ [b]).take cfg.pasteChunkSize :: cs, pb2, ?_, ?_, ?_, ?_⟩
      · rw [hrun]
        simp [List.append_assoc]
      · calc (List.take cfg.pasteChunkSize (pb ++ [b]) :: cs).flatten ++ pb2
            = List.take cfg.pasteChunkSize (pb ++ [b]) ++ (cs.flatten ++ pb2) := by
              simp [List.append_assoc]
          _ = List.take cfg.pasteChunkSize (pb ++ [b]) ++
              (List.drop cfg.pasteChunkSize (pb ++ [b]) ++ rest) := by rw [hflat]
          _ = (pb ++ [b]) ++ rest := by rw [← List.append_assoc, List.take_append_drop]
          _ = pb ++ b :: rest := by simp
      · simpa [List.append_assoc] using hsfx2
      · simpa [List.append_assoc] using hlen2
    · -- byte is only buffered
      rw [pasteStep_nofire_nochunk cfg pb P b hfire hch]
      have hl2 : (pb ++ [b]).length < (P ++ [b]).length → 7 ≤ (pb ++ [b]).length := by
        intro hlt
        simp only [List.length_append, List.length_cons] at hlt ⊢
        have := hlen (by omega)
        omega
      obtain ⟨cs, pb2, hrun, hflat, hsfx2, hlen2⟩ := ih _ _ hsuf1 hl2 hnf2
      refine ⟨cs, pb2, ?_, ?_, ?_, ?_⟩
      · rw [hrun]
        simp [List.append_assoc]
      · rw [hflat]
        simp
      · simpa [List.append_assoc] using hsfx2
      · simpa [List.append_assoc] using hlen2

theorem suffix_full (xs ys : List Nat) (h : xs <:+ ys) (hl : ys.length ≤ xs.length) :
    xs = ys := by
  obtain ⟨t, rfl⟩ := h
  have ht : t = [] := by
    have := List.length_append t xs
    exact List.eq_nil_of_length_eq_zero (by omega)
  simp [ht]

theorem suffix_tail6 (xs ys : List Nat) (h : xs <:+ ys) (h6 : 6 ≤ xs.length) :
    xs.drop (xs.length - 6) = ys.drop (ys.length - 6) := by
  obtain ⟨t, rfl⟩ := h
  have hix : (t ++ xs).length - 6 = t.length + (xs.length - 6) := by
    simp [List.length_append]
    omega
  rw [hix]
  simp [List.drop_append]

/-- The paste end marker has no self-overlap: it is never a suffix of
any content followed by one of its own proper prefixes. -/
theorem endMarker_no_self_overlap (C : List Nat) (k : Nat) (hk1 : 1 ≤ k) (hk5 : k ≤ 5)
    (h : (kb "\x1b[201~") <:+ (C ++ (kb "\x1b[201~").take k)) : False := by
  have h6 : (kb "\x1b[201~").length = 6 := by decide
  have hlen : ((kb "\x1b[201~").take k).length = k := by
    rw [List.length_take]
    omega
  have h2 : (kb "\x1b[201~").take k <:+ (C ++ (kb "\x1b[201~").take k) :=
    List.suffix_append _ _
  have h3 : (kb "\x1b[201~").take k <:+ (kb "\x1b[201~") :=
    List.suffix_of_suffix_length_le h2 h (by rw [hlen]; omega)
  obtain ⟨t, ht⟩ := h3
  have htl : t.length = 6 - k := by
    have hlc := congrArg List.length ht
    rw [List.length_append, hlen, h6] at hlc
    omega
  have hdt : (kb "\x1b[201~").drop (6 - k) = (kb "\x1b[201~").take k := by
    rw [← htl]
    conv_lhs => rw [← ht]
    rw [List.drop_left]
  interval_cases k
  · exact absurd hdt (by decide)
  · exact absurd hdt (by decide)
  · exact absurd hdt (by decide)
  · exact absurd hdt (by decide)
  · exact absurd hdt (by decide)

/-- C3: with incremental chunk delivery enabled and any positive chunk
size, feeding the paste start marker, then any content C that does not
contain the end marker as a substring, then the true end marker: the
paste is never terminated while C is being fed (the decoder is still in
paste mode with no OnPaste delivery after start ++ C), and the complete
run delivers OnPaste content exactly C, with the concatenation of all
emitted paste chunks (non-final chunks plus the final one) also exactly
C, returning the decoder to the initial state. -/
theorem C3_paste_round_trip (cfg : HandlerCfg) (C : List Nat)
    (hcb : cfg.hasOnPasteChunk = true) (hcs : 1 ≤ cfg.pasteChunkSize)
    (hC : ¬ (kb "\x1b[201~") <:+: C) :
    ((processBytes cfg initState (kb "\x1b[200~" ++ C)).1.inPaste = true ∧
     pasteEvents (processBytes cfg initState (kb "\x1b[200~" ++ C)).2 = []) ∧
    (∃ evs : List Ev,
       processBytes cfg initState (kb "\x1b[200~" ++ C ++ kb "\x1b[201~") = (initState, evs) ∧
       pasteEvents evs = [C] ∧ (chunkEvents evs).flatten = C) := by
  have hnfC : ∀ k, 1 ≤ k → k ≤ C.length →
      ¬ (kb "\x1b[201~") <:+ (([] : List Nat) ++ C.take k) := by
    intro k _ _ hs
    rw [List.nil_append] at hs
    exact hC (hs.isInfix.trans (List.take_prefix k C).isInfix)
  obtain ⟨cs, pb2, hrunC, hflatC, hsfxC, hlenC⟩ :=
    pasteRun cfg C [] [] List.nil_suffix (by simp) hnfC
  rw [List.nil_append] at hrunC hflatC hsfxC hlenC
  have hfirst : processBytes cfg initState (kb "\x1b[200~" ++ C) =
      (pstate pb2 C, List.map (fun c => Ev.chunk c false) cs) := by
    rw [processBytes_append, startMarker_run]
    simp [hrunC]
  constructor
  · rw [hfirst]
    exact ⟨rfl, pasteEvents_chunks cs⟩
  · have hM5 : ([27, 91, 50, 48, 49] : List Nat) ++ [126] = kb "\x1b[201~" := by decide
    have hnf5 : ∀ k, 1 ≤ k → k ≤ ([27, 91, 50, 48, 49] : List Nat).length →
        ¬ (kb "\x1b[201~") <:+ (C ++ ([27, 91, 50, 48, 49] : List Nat).take k) := by
      intro k hk1 hk5 h
      have hk5' : k ≤ 5 := by simpa using hk5
      have htk : ([27, 91, 50, 48, 49] : List Nat).take k = (kb "\x1b[201~").take k := by
        interval_cases k <;> decide
      exact endMarker_no_self_overlap C k hk1 hk5' (htk ▸ h)
    obtain ⟨cs2, pb3, hrun5, hflat5, hsfx5, hlen5⟩ :=
      pasteRun cfg [27, 91, 50, 48, 49] pb2 C hsfxC hlenC hnf5
    have h6 : (kb "\x1b[201~").length = 6 := by decide
    have hfirelen : 6 ≤ (pb3 ++ [126]).length := by
      rcases Nat.lt_or_ge pb3.length (C ++ [27, 91, 50, 48, 49]).length with hlt | hge
      · have := hlen5 hlt
        simp only [List.length_append, List.length_cons]
        omega
      · have heq : pb3 = C ++ [27, 91, 50, 48, 49] := suffix_full _ _ hsfx5 hge
        rw [heq]
        simp [List.length_append]
    have hCM : (C ++ [27, 91, 50, 48, 49]) ++ [126] = C ++ kb "\x1b[201~" := by
      rw [List.append_assoc, hM5]
    have hidx : (C ++ kb "\x1b[201~").length - 6 = C.length := by
      simp [List.length_append, h6]
    have htail : (pb3 ++ [126]).drop ((pb3 ++ [126]).length - 6) = kb "\x1b[201~" := by
      have hsfx6 : pb3 ++ [126] <:+ (C ++ [27, 91, 50, 48, 49]) ++ [126] :=
        suffix_append_right [126] hsfx5
      rw [suffix_tail6 _ _ hsfx6 hfirelen, hCM, hidx, List.drop_left]
    have hfull : ((C ++ [27, 91, 50, 48, 49]) ++ [126]).take
        (((C ++ [27, 91, 50, 48, 49]) ++ [126]).length - 6) = C := by
      rw [hCM, hidx, List.take_left]
    have hlast : processByte cfg (pstate pb3 (C ++ [27, 91, 50, 48, 49])) 126 =
        ((emitPaste cfg initState C).1,
         [Ev.chunk ((pb3 ++ [126]).take ((pb3 ++ [126]).length - 6)) true] ++
         (emitPaste cfg initState C).2) := by
      rw [processByte_inPaste cfg _ _ rfl,
        pasteStep_fire cfg pb3 (C ++ [27, 91, 50, 48, 49]) 126 ⟨hfirelen, htail⟩]
      rw [hfull, hcb]
      simp
    obtain ⟨hst, hpev, hcev⟩ := emitPaste_normal cfg initState C rfl
    have hsecond : processBytes cfg (pstate pb2 C) (kb "\x1b[201~") =
        ((emitPaste cfg initState C).1,
         List.map (fun c => Ev.chunk c false) cs2 ++
         ([Ev.chunk ((pb3 ++ [126]).take ((pb3 ++ [126]).length - 6)) true] ++
          (emitPaste cfg initState C).2)) := by
      rw [← hM5, processBytes_append cfg (pstate pb2 C) [27, 91, 50, 48, 49] [126], hrun5]
      simp only [processBytes_cons, processBytes_nil, hlast]
      simp
    have hassemble : processBytes cfg initState (kb "\x1b[200~" ++ C ++ kb "\x1b[201~") =
        (initState,
         List.map (fun c => Ev.chunk c false) cs ++
         (List.map (fun c => Ev.chunk c false) cs2 ++
          ([Ev.chunk ((pb3 ++ [126]).take ((pb3 ++ [126]).length - 6)) true] ++
           (emitPaste cfg initState C).2))) := by
      rw [processBytes_append cfg initState (kb "\x1b[200~" ++ C) (kb "\x1b[201~"), hfirst]
      rw [hsecond, hst]
    have hremsplit : (pb3 ++ [126]).take ((pb3 ++ [126]).length - 6) ++ kb "\x1b[201~" =
        pb3 ++ [126] := by
      conv_rhs => rw [← List.take_append_drop ((pb3 ++ [126]).length - 6) (pb3 ++ [126])]
      rw [htail]
    have hkey : (cs.flatten ++ (cs2.flatten ++ (pb3 ++ [126]).take ((pb3 ++ [126]).length - 6))) ++
        kb "\x1b[201~" = C ++ kb "\x1b[201~" := by
      calc (cs.flatten ++ (cs2.flatten ++ (pb3 ++ [126]).take ((pb3 ++ [126]).length - 6))) ++
          kb "\x1b[201~"
          = cs.flatten ++ (cs2.flatten ++
              ((pb3 ++ [126]).take ((pb3 ++ [126]).length - 6) ++ kb "\x1b[201~")) := by
            simp [List.append_assoc]
        _ = cs.flatten ++ (cs2.flatten ++ (pb3 ++ [126])) := by rw [hremsplit]
        _ = cs.flatten ++ ((cs2.flatten ++ pb3) ++ [126]) := by simp [List.append_assoc]
        _ = cs.flatten ++ ((pb2 ++ [27, 91, 50, 48, 49]) ++ [126]) := by rw [hflat5]
        _ = (cs.flatten ++ pb2) ++ ([27, 91, 50, 48, 49] ++ [126]) := by
            simp [List.append_assoc]
        _ = C ++ kb "\x1b[201~" := by rw [hflatC, hM5]
    have hfinal : cs.flatten ++ (cs2.flatten ++
        (pb3 ++ [126]).take ((pb3 ++ [126]).length - 6)) = C :=
      List.append_cancel_right hkey
    refine ⟨_, hassemble, ?_, ?_⟩
    · rw [pasteEvents_append, pasteEvents_append, pasteEvents_append,
        pasteEvents_chunks, pasteEvents_chunks, hpev]
      simp [pasteEvents]
    · rw [chunkEvents_append, chunkEvents_append, chunkEvents_append,
        chunkEvents_chunks, chunkEvents_chunks, hcev]
      have hone : chunkEvents [Ev.chunk ((pb3 ++ [126]).take ((pb3 ++ [126]).length - 6)) true] =
          [(pb3 ++ [126]).take ((pb3 ++ [126]).length - 6)] := by
        simp [chunkEvents]
      rw [hone]
      simpa [List.append_assoc] using hfinal

/-- Witness for C3_paste_round_trip: chunk size 2 and content
`ESC [ 2 0 1 x` — a proper prefix of the end marker followed by a
non-matching byte. -/
theorem C3_paste_round_trip_witness :
    ((processBytes ⟨false, true, 2⟩ initState (kb "\x1b[200~" ++ [27, 91, 50, 48, 49, 120])).1.inPaste = true ∧
     pasteEvents (processBytes ⟨false, true, 2⟩ initState (kb "\x1b[200~" ++ [27, 91, 50, 48, 49, 120])).2 = []) ∧
    (∃ evs : List Ev,
       processBytes ⟨false, true, 2⟩ initState (kb "\x1b[200~" ++ [27, 91, 50, 48, 49, 120] ++ kb "\x1b[201~") = (initState, evs) ∧
       pasteEvents evs = [[27, 91, 50, 48, 49, 120]] ∧
       (chunkEvents evs).flatten = [27, 91, 50, 48, 49, 120]) :=
  C3_paste_round_trip ⟨false, true, 2⟩ [27, 91, 50, 48, 49, 120] rfl (by decide) (by decide)
